import Mathlib

/-!
Ephenation world server, `cmd/server/pheenadv.go`.

A shallow embedding of the functions of `pheenadv.go`: `DumpSQLPlayer`, `DumpSQL`,
`ConvertFiles` and the control flow of `main`, with the properties that the
specification states about them.

Conventions of the embedding.

* A Go `string` is a sequence of bytes; file names are `List Char`.
* A pointer argument that the callee mutates (`pl *player`) is a value that is passed
  in and returned.
* Output written with `fmt.Printf` or `log.Println` is a list of messages in the result.
* Types, constants and helpers of the repository that are declared outside this source
  file (`player`, `inventory`, `chunkdb.CC`, `CHF_MODIFIED`, `dBFindChunkFromFS`,
  `DBChunkFileName`) are parameters of the embedding.
-/

set_option autoImplicit false

namespace Pheenadv

/-! ## Avatar records: `DumpSQLPlayer` and `DumpSQL` -/

/-- The coordinate of a player (`pl.coord`, `pl.homeSP`, `pl.reviveSP`, `pl.targetCoor`):
three numbers `X`, `Y`, `Z` of a scalar type `α` declared outside this file. -/
structure user_coord (α : Type) where
  X : α
  Y : α
  Z : α
deriving DecidableEq, Repr

/-- The fields of `player` that `pheenadv.go` names. `α` is the scalar of coordinates,
`V` the type of the numeric columns that are only copied, `Inv` the inventory,
`T` the type of time stamps, and `Ov` stands for every field of `player` that this
file does not name (among them the exported fields that the JSON overlay fills). -/
structure player (α V Inv T Ov : Type) where
  name : String
  coord : user_coord α
  flying : Bool
  climbing : Bool
  dead : Bool
  dirHor : V
  dirVert : V
  adminLevel : V
  level : V
  exp : V
  hitPoints : V
  mana : V
  numKill : V
  homeSP : user_coord α
  reviveSP : user_coord α
  maxchunks : Int
  blockAdd : V
  blockRem : V
  timeOnline : V
  head : V
  body : V
  targetCoor : user_coord α
  inventory : Inv
  logonTimer : T
  other : Ov
deriving DecidableEq

/-- The collaborators of `DumpSQLPlayer` that live outside this file:
`json.Unmarshal(bytes, pl)`, which may change the record and may report an error,
and the inventory methods `Unpack` and `CleanUp`, which act on `pl.inventory` only. -/
structure Codec (α V Inv T Ov : Type) where
  Unmarshal : String → player α V Inv T Ov → player α V Inv T Ov × Option String
  Unpack : Inv → List Nat → Inv × Option String
  CleanUp : Inv → Inv

/-- What `DumpSQLPlayer` writes: lines of the log and the record printed on stdout. -/
inductive DumpMsg (α V Inv T Ov : Type) where
  | unmarshalFailed (name : String) (err : String) (packedline : String)
  | unpackFailed (err : String) (packedInv : List Nat)
  | inventoryUnpacked (inv : Inv)
  | user (pl : player α V Inv T Ov)

/-- The message is the record printed by line 297. -/
def DumpMsg.isUser {α V Inv T Ov : Type} : DumpMsg α V Inv T Ov → Bool
  | DumpMsg.user _ => true
  | _ => false

section Dump

variable {α V Inv T Ov : Type}

/-- Lines 267-274: set the logon timer and decode the JSON overlay into the record.
An error is logged and the function goes on. -/
def unmarshalStep (cd : Codec α V Inv T Ov) (now : T) (pl : player α V Inv T Ov)
    (packedline : String) : player α V Inv T Ov × List (DumpMsg α V Inv T Ov) :=
  let pl0 := { pl with logonTimer := now }
  match cd.Unmarshal packedline pl0 with
  | (pl1, some err) => (pl1, [DumpMsg.unmarshalFailed pl0.name err packedline])
  | (pl1, none) => (pl1, [])

/-- Lines 276-287: when the blob is not empty, unpack it, log a failure, and clean up
in either case; then log the inventory when `verboseFlag > 1`. -/
def inventoryStep (cd : Codec α V Inv T Ov) (verboseFlag : Int) (pl : player α V Inv T Ov)
    (packedInv : List Nat) : player α V Inv T Ov × List (DumpMsg α V Inv T Ov) :=
  let r :=
    if packedInv.length > 0 then
      match cd.Unpack pl.inventory packedInv with
      | (inv, some err) =>
        ({ pl with inventory := cd.CleanUp inv }, [DumpMsg.unpackFailed err packedInv])
      | (inv, none) => ({ pl with inventory := cd.CleanUp inv }, [])
    else (pl, [])
  if verboseFlag > 1 then (r.1, r.2 ++ [DumpMsg.inventoryUnpacked r.1.inventory]) else r

/-- The test of line 291: every component of the coordinate compares equal to zero. -/
def isUnset [Zero α] [DecidableEq α] (c : user_coord α) : Bool :=
  decide (c.X = 0) && decide (c.Y = 0) && decide (c.Z = 0)

/-- Lines 291-295: when no revive spawn point is set, both spawn points become the
position. -/
def spawnStep [Zero α] [DecidableEq α] (pl : player α V Inv T Ov) : player α V Inv T Ov :=
  if isUnset pl.reviveSP then { pl with reviveSP := pl.coord, homeSP := pl.coord } else pl

/-- The record as it is after the two decoding steps and before the spawn-point step. -/
def decoded (cd : Codec α V Inv T Ov) (verboseFlag : Int) (now : T)
    (pl : player α V Inv T Ov) (packedline : String) (packedInv : List Nat) :
    player α V Inv T Ov :=
  (inventoryStep cd verboseFlag (unmarshalStep cd now pl packedline).1 packedInv).1

/-- `DumpSQLPlayer(pl, packedline, packedInv)`: the record on return and the output. -/
def DumpSQLPlayer [Zero α] [DecidableEq α] (cd : Codec α V Inv T Ov) (verboseFlag : Int)
    (now : T) (pl : player α V Inv T Ov) (packedline : String) (packedInv : List Nat) :
    player α V Inv T Ov × List (DumpMsg α V Inv T Ov) :=
  let a := unmarshalStep cd now pl packedline
  let b := inventoryStep cd verboseFlag a.1 packedInv
  let pl3 := spawnStep b.1
  (pl3, a.2 ++ b.2 ++ [DumpMsg.user pl3])

/-- One row of the result of the query of `DumpSQL`, column by column. -/
structure AvatarRow (α V : Type) where
  name : String
  jsonstring : String
  id : Nat
  PositionX : α
  PositionY : α
  PositionZ : α
  isFlying : Int
  isClimbing : Int
  isDead : Int
  DirHor : V
  DirVert : V
  AdminLevel : V
  Level : V
  Experience : V
  HitPoints : V
  Mana : V
  Kills : V
  HomeX : α
  HomeY : α
  HomeZ : α
  ReviveX : α
  ReviveY : α
  ReviveZ : α
  maxchunks : Int
  BlocksAdded : V
  BlocksRemoved : V
  TimeOnline : V
  HeadType : V
  BodyType : V
  inventory : List Nat
  TScoreTotal : V
  TScoreBalance : V
  TScoreTime : Nat
  TargetX : α
  TargetY : α
  TargetZ : α

/-- The effect of one successful `stmt.Fetch()` on the record: the fields whose address
was given to `BindResult` (lines 230-233) receive the columns of the row. The fields
`flying`, `climbing`, `dead`, `inventory`, `logonTimer` and the unnamed ones are not
bound and keep their value. -/
def bindRow (pl : player α V Inv T Ov) (r : AvatarRow α V) : player α V Inv T Ov :=
  { pl with
    name := r.name
    coord := ⟨r.PositionX, r.PositionY, r.PositionZ⟩
    dirHor := r.DirHor
    dirVert := r.DirVert
    adminLevel := r.AdminLevel
    level := r.Level
    exp := r.Experience
    hitPoints := r.HitPoints
    mana := r.Mana
    numKill := r.Kills
    homeSP := ⟨r.HomeX, r.HomeY, r.HomeZ⟩
    reviveSP := ⟨r.ReviveX, r.ReviveY, r.ReviveZ⟩
    maxchunks := r.maxchunks
    blockAdd := r.BlocksAdded
    blockRem := r.BlocksRemoved
    timeOnline := r.TimeOnline
    head := r.HeadType
    body := r.BodyType
    targetCoor := ⟨r.TargetX, r.TargetY, r.TargetZ⟩ }

/-- Lines 244-258, the post processing of a fetched row: a flag column equal to 1 sets
the boolean of the record, and an uninitialised `maxchunks` gets the configured value. -/
def postProcess (CnfgMaxOwnChunk : Int) (pl : player α V Inv T Ov) (r : AvatarRow α V) :
    player α V Inv T Ov :=
  let pl1 := if r.isFlying = 1 then { pl with flying := true } else pl
  let pl2 := if r.isClimbing = 1 then { pl1 with climbing := true } else pl1
  let pl3 := if r.isDead = 1 then { pl2 with dead := true } else pl2
  if pl3.maxchunks = -1 then { pl3 with maxchunks := CnfgMaxOwnChunk } else pl3

/-- The state of the loop of `DumpSQL`: the one variable `pl` declared before the loop,
the records handed to `DumpSQLPlayer` so far, and the output. -/
structure DumpState (α V Inv T Ov : Type) where
  pl : player α V Inv T Ov
  passed : List (player α V Inv T Ov)
  out : List (DumpMsg α V Inv T Ov)

/-- The loop of lines 235-260 over the results of `stmt.Fetch()`: `some r` is a fetched
row, `none` a fetch error, which ends the function; the end of the list is `eof`. -/
def dumpLoop [Zero α] [DecidableEq α] (cd : Codec α V Inv T Ov) (verboseFlag : Int) (now : T)
    (CnfgMaxOwnChunk : Int) :
    List (Option (AvatarRow α V)) → DumpState α V Inv T Ov → DumpState α V Inv T Ov
  | [], s => s
  | none :: _, s => s
  | some r :: rest, s =>
    let pl1 := postProcess CnfgMaxOwnChunk (bindRow s.pl r) r
    let d := DumpSQLPlayer cd verboseFlag now pl1 r.jsonstring r.inventory
    dumpLoop cd verboseFlag now CnfgMaxOwnChunk rest
      { pl := d.1, passed := s.passed ++ [pl1], out := s.out ++ d.2 }

/-- `DumpSQL()`. `ready` is false when no connection is available or when preparing or
executing the statement fails; `pl0` is the zero value of `player`. -/
def DumpSQL [Zero α] [DecidableEq α] (cd : Codec α V Inv T Ov) (verboseFlag : Int) (now : T)
    (CnfgMaxOwnChunk : Int) (ready : Bool) (pl0 : player α V Inv T Ov)
    (fetched : List (Option (AvatarRow α V))) : DumpState α V Inv T Ov :=
  if ready then
    dumpLoop cd verboseFlag now CnfgMaxOwnChunk fetched { pl := pl0, passed := [], out := [] }
  else { pl := pl0, passed := [], out := [] }

end Dump

/-! ## Chunk files: `ConvertFiles` -/

/-- A file name, byte by byte. -/
abbrev FileName := List Char

/-- Go `strings.Split(s, sep)` for a separator of one byte: the pieces of `s` between
the occurrences of `sep`; one more piece than there are separators. -/
def Split (s : List Char) (sep : Char) : List (List Char) :=
  match s with
  | [] => [[]]
  | c :: cs =>
    if c = sep then [] :: Split cs sep
    else
      match Split cs sep with
      | [] => [[c]]
      | p :: ps => (c :: p) :: ps

/-- The value of a decimal digit, `none` for any other byte. -/
def digitVal (c : Char) : Option Nat :=
  if 48 ≤ c.toNat ∧ c.toNat ≤ 57 then some (c.toNat - 48) else none

/-- The number written by a run of decimal digits, `acc` being the value read so far;
`none` when a byte is not a digit. -/
def parseDigits : List Char → Nat → Option Nat
  | [], acc => some acc
  | c :: cs, acc =>
    match digitVal c with
    | none => none
    | some d => parseDigits cs (acc * 10 + d)

/-- Go `strconv.Atoi(s)` where `int` has `intSize` bits: an optional sign followed by
at least one decimal digit, and a value that fits `int`. `none` is the error result
(a syntax error or a range error). -/
def Atoi (intSize : Nat) (s : List Char) : Option Int :=
  let p : Bool × List Char :=
    match s with
    | '-' :: r => (true, r)
    | '+' :: r => (false, r)
    | _ => (false, s)
  if p.2 = [] then none
  else
    match parseDigits p.2 0 with
    | none => none
    | some n =>
      if p.1 then (if n ≤ 2 ^ (intSize - 1) then some (-(n : Int)) else none)
      else (if n < 2 ^ (intSize - 1) then some (n : Int) else none)

/-- The Go conversion `int32(x)`: the value of the low 32 bits of `x`, in two's
complement. -/
def int32 (x : Int) : Int := (x + 2 ^ 31) % 2 ^ 32 - 2 ^ 31

/-- The chunk coordinate `chunkdb.CC`, three `int32` fields. -/
structure CC where
  X : Int
  Y : Int
  Z : Int
deriving DecidableEq, Repr

/-- The part of a chunk that `ConvertFiles` reads: its `flag` word. -/
structure chunk where
  flag : Nat
deriving DecidableEq, Repr

/-- A file of the chunk folder: its name, and the flag word that is stored in it. -/
structure File where
  name : FileName
  flag : Nat
deriving DecidableEq, Repr

/-- The content of the chunk folder `CnfgChunkFolder`. -/
abbrev Dir := List File

/-- The names that `ioutil.ReadDir(CnfgChunkFolder)` lists. -/
def ReadDir (fs : Dir) : List FileName := fs.map File.name

/-- Go `os.Remove(name)` in the chunk folder. The call fails (`false`) and changes
nothing when there is no file of that name, and also when the system refuses to remove
the file that is there (`refused`: a read-only folder, a missing permission, a directory
that is not empty). Otherwise the file is removed. -/
def osRemove (refused : Bool) (fs : Dir) (name : FileName) : Dir × Bool :=
  if fs.any (fun f => decide (f.name = name)) && !refused then
    (fs.filter (fun f => !decide (f.name = name)), true)
  else (fs, false)

/-- The surroundings of `ConvertFiles`. Three parts of the repository that are declared
outside this file: the bit `CHF_MODIFIED`, the loader `dBFindChunkFromFS`, which reads
the folder, and `DBChunkFileName`, the name of the file of a chunk within the folder.
And the system: `removeRefused fs name` tells whether `os.Remove` refuses to remove
the file `name` of the folder `fs`. -/
structure Env where
  CHF_MODIFIED : Nat
  dBFindChunkFromFS : Dir → CC → chunk
  DBChunkFileName : CC → FileName
  removeRefused : Dir → FileName → Bool

/-- What `ConvertFiles` prints. -/
inductive ConvMsg where
  | failedToRead
  | skipping (fn : FileName)
  | badFileName (fn : FileName)
  | failedToRemove (fn : FileName)
  | summary (mod unmod : Nat)
deriving DecidableEq, Repr

/-- Lines 162-182: a name is split on commas; it is skipped unless there are three
parts, and it is a bad file name unless each part is accepted by `Atoi`, tried in the
order X, Y, Z; otherwise the coordinate is built with `int32`. -/
def parseName (intSize : Nat) (fn : FileName) : Except ConvMsg CC :=
  match Split fn ',' with
  | [a, b, c] =>
    match Atoi intSize a with
    | none => Except.error (ConvMsg.badFileName fn)
    | some x =>
      match Atoi intSize b with
      | none => Except.error (ConvMsg.badFileName fn)
      | some y =>
        match Atoi intSize c with
        | none => Except.error (ConvMsg.badFileName fn)
        | some z => Except.ok ⟨int32 x, int32 y, int32 z⟩
  | _ => Except.error (ConvMsg.skipping fn)

/-- One call of `dBFindChunkFromFS` made by `ConvertFiles`: the directory entry that
caused it, the coordinate that was passed, and the chunk that came back. -/
structure Load where
  fn : FileName
  c : CC
  ch : chunk
deriving DecidableEq, Repr

/-- One call of `os.Remove` made by `ConvertFiles`: the directory entry that caused it,
the name that was passed, and whether the call succeeded. -/
structure Removal where
  fn : FileName
  name : FileName
  ok : Bool
deriving DecidableEq, Repr

/-- The state of the loop of `ConvertFiles`: the folder, the two counters, the output,
and the calls made so far. The counters are Go `int`; they count directory entries and
do not overflow. -/
structure ConvState where
  fs : Dir
  mod : Nat
  unmod : Nat
  out : List ConvMsg
  loads : List Load
  removals : List Removal
deriving DecidableEq, Repr

/-- The test `ch.flag&CHF_MODIFIED != 0` of line 184. -/
def isModified (env : Env) (ch : chunk) : Bool := decide (ch.flag &&& env.CHF_MODIFIED ≠ 0)

/-- The body of the loop, lines 160-193, for the directory entry `fn`. -/
def convertStep (intSize : Nat) (env : Env) (s : ConvState) (fn : FileName) : ConvState :=
  match parseName intSize fn with
  | Except.error msg => { s with out := s.out ++ [msg] }
  | Except.ok c =>
    let ch := env.dBFindChunkFromFS s.fs c
    if isModified env ch then
      { s with mod := s.mod + 1, loads := s.loads ++ [⟨fn, c, ch⟩] }
    else
      let name := env.DBChunkFileName c
      let r := osRemove (env.removeRefused s.fs name) s.fs name
      { fs := r.1
        mod := s.mod
        unmod := s.unmod + 1
        out := if r.2 then s.out else s.out ++ [ConvMsg.failedToRemove fn]
        loads := s.loads ++ [⟨fn, c, ch⟩]
        removals := s.removals ++ [⟨fn, name, r.2⟩] }

/-- The loop of lines 159-194 over the entries of the listing. -/
def convertLoop (intSize : Nat) (env : Env) (dir : List FileName) (s : ConvState) : ConvState :=
  dir.foldl (convertStep intSize env) s

/-- `ConvertFiles()`. `listing` is the result of `ioutil.ReadDir`: `none` when reading
the folder fails, otherwise the names of its entries; `fs` is the folder. -/
def ConvertFiles (intSize : Nat) (env : Env) (listing : Option (List FileName)) (fs : Dir) :
    ConvState :=
  match listing with
  | none => { fs := fs, mod := 0, unmod := 0, out := [ConvMsg.failedToRead], loads := [], removals := [] }
  | some dir =>
    let s := convertLoop intSize env dir
      { fs := fs, mod := 0, unmod := 0, out := [], loads := [], removals := [] }
    { s with out := s.out ++ [ConvMsg.summary s.mod s.unmod] }

/-- A name is well formed when it splits on commas into exactly three parts and each
part parses as an integer. -/
def wellFormed (intSize : Nat) (fn : FileName) : Bool :=
  decide ((Split fn ',').length = 3) && (Split fn ',').all (fun p => (Atoi intSize p).isSome)

/-- The character of a decimal digit. -/
def digitChar (d : Nat) : Char :=
  match d with
  | 0 => '0'
  | 1 => '1'
  | 2 => '2'
  | 3 => '3'
  | 4 => '4'
  | 5 => '5'
  | 6 => '6'
  | 7 => '7'
  | 8 => '8'
  | _ => '9'

/-- The decimal digits of `n`, the most significant first; `fuel` bounds the number of
digits. -/
def natDigits : Nat → Nat → List Char
  | 0, _ => []
  | fuel + 1, n =>
    if n < 10 then [digitChar n]
    else natDigits fuel (n / 10) ++ [digitChar (n % 10)]

/-- The decimal text of an integer, as `%d` prints it. -/
def itoa (x : Int) : List Char :=
  match x with
  | Int.ofNat n => natDigits (n + 1) n
  | Int.negSucc n => '-' :: natDigits (n + 2) (n + 1)

/-- Modelled from the spec: `DBChunkFileName`, which is declared outside this source
file. A chunk file is named by the coordinate of its chunk, as three integers separated
by commas, `X,Y,Z`. -/
def DBChunkFileName (c : CC) : FileName :=
  itoa c.X ++ [','] ++ itoa c.Y ++ [','] ++ itoa c.Z

/-- Modelled from the spec: `dBFindChunkFromFS`, which is declared outside this source
file. The file of a chunk holds its payload and its status flags, the modified flag
among them; loading a chunk reads the file of that name. `absent` is the chunk that
comes back when the folder has no such file. -/
def dBFindChunkFromFS (absent : chunk) (fs : Dir) (c : CC) : chunk :=
  match fs.find? (fun f => decide (f.name = DBChunkFileName c)) with
  | some f => ⟨f.flag⟩
  | none => absent

/-- The environment in which chunks are loaded from their files. Whether the system
refuses to remove a file depends on the file: `refused` holds of the names that
`os.Remove` does not remove. -/
def fsEnv (CHF_MODIFIED : Nat) (absent : chunk) (refused : FileName → Bool) : Env :=
  { CHF_MODIFIED := CHF_MODIFIED
    dBFindChunkFromFS := dBFindChunkFromFS absent
    DBChunkFileName := DBChunkFileName
    removeRefused := fun _ name => refused name }

/-- The name of an entry is the name under which the chunk of its coordinate is
stored. -/
def canonical (intSize : Nat) (fn : FileName) : Bool :=
  match parseName intSize fn with
  | Except.ok c => decide (DBChunkFileName c = fn)
  | Except.error _ => true

/-! ## Startup: `main` -/

/-- What `main` obtains from the configuration file: whether there is a section `sql`,
and the result of `cnfg.String` for each key that is read (`none` is an error). -/
structure Config where
  hasSql : Bool
  DatabaseServer : Option String
  DatabaseName : Option String
  DatabaseLogin : Option String
  DatabasePassword : Option String
  salt : Option String
deriving DecidableEq, Repr

/-- The inputs of one run of `main`: the result of `config.ReadDefault` (`none` is an
error), the command line flags that steer the control flow, and the outcome of the
system calls that `main` checks. -/
structure Startup where
  config : Option Config
  convertChunkFiles : Bool
  cpuprofile : String
  createOk : Bool
  dumpsql : Bool
  tflag : Bool
  hostnameOk : Bool
  listenOk : Bool
deriving DecidableEq, Repr

/-- The calls that `main` makes, in the order of the source. -/
inductive Action where
  | SetConnection (server name login pwd : String)
  | ConvertFiles
  | StartCPUProfile
  | DumpSQL
  | DoTest
  | SetupListenForClients_WLuBlWLqWLa
  | Poll_Bl
  | ProcAutosave_RLu
  | ProcPurgeOldChunks_WLw
  | CatchSig
  | ManageMonsters_WLwWLuWLqWLmBlWLc
deriving DecidableEq, Repr

/-- How a run of `main` ends: it returns, it calls `os.Exit(code)` (`log.Fatal` is
`os.Exit(1)`), it panics, or it stays in `ManageMonsters_WLwWLuWLqWLmBlWLc`, which does
not return. -/
inductive Ending where
  | returned
  | exit (code : Nat)
  | panicked
  | neverReturns
deriving DecidableEq, Repr

/-- The exit status of the process: 0 when `main` returns, the argument of `os.Exit`,
2 after a panic, and none while the server runs. -/
def exitStatus : Ending → Option Nat
  | Ending.returned => some 0
  | Ending.exit code => some code
  | Ending.panicked => some 2
  | Ending.neverReturns => none

/-- Lines 67-91: with a section `sql` the four keys are read in turn, and the first one
that is missing ends `main` (`none`); without the section a line is logged and `main`
goes on without a connection. -/
def setupSql (cnfg : Config) : Option (List Action) :=
  if cnfg.hasSql then
    match cnfg.DatabaseServer with
    | none => none
    | some server =>
      match cnfg.DatabaseName with
      | none => none
      | some name =>
        match cnfg.DatabaseLogin with
        | none => none
        | some login =>
          match cnfg.DatabasePassword with
          | none => none
          | some pwd => some [Action.SetConnection server name login pwd]
  else some []

/-- Lines 95-147: the rest of `main` once the configuration is read. -/
def startServer (s : Startup) (acts : List Action) : List Action × Ending :=
  if s.convertChunkFiles then (acts ++ [Action.ConvertFiles], Ending.returned)
  else if s.cpuprofile ≠ "" ∧ s.createOk = false then (acts, Ending.exit 1)
  else
    let acts1 := if s.cpuprofile ≠ "" then acts ++ [Action.StartCPUProfile] else acts
    if s.dumpsql then (acts1 ++ [Action.DumpSQL], Ending.exit 0)
    else if s.tflag then (acts1 ++ [Action.DoTest], Ending.returned)
    else if s.hostnameOk = false then (acts1, Ending.panicked)
    else if s.listenOk = false then
      (acts1 ++ [Action.SetupListenForClients_WLuBlWLqWLa], Ending.exit 1)
    else
      (acts1 ++ [Action.SetupListenForClients_WLuBlWLqWLa, Action.Poll_Bl,
        Action.ProcAutosave_RLu, Action.ProcPurgeOldChunks_WLw, Action.CatchSig,
        Action.ManageMonsters_WLwWLuWLqWLmBlWLc], Ending.neverReturns)

/-- `main()`: the calls it makes and how it ends. -/
def main (s : Startup) : List Action × Ending :=
  match s.config with
  | none => ([], Ending.returned)
  | some cnfg =>
    match setupSql cnfg with
    | none => ([], Ending.returned)
    | some acts => startServer s acts

/-- The activities of the running server: the poller, autosave, purge, the signal
handler and the tick loop. -/
def Action.isActivity : Action → Bool
  | Action.Poll_Bl => true
  | Action.ProcAutosave_RLu => true
  | Action.ProcPurgeOldChunks_WLw => true
  | Action.CatchSig => true
  | Action.ManageMonsters_WLwWLuWLqWLmBlWLc => true
  | _ => false

/-- The activities that a run of `main` launches. -/
def launched (s : Startup) : List Action := (main s).1.filter Action.isActivity

/-- One of the four keys of the section `sql` is missing. -/
def Config.keyMissing (cnfg : Config) : Bool :=
  cnfg.DatabaseServer.isNone || cnfg.DatabaseName.isNone || cnfg.DatabaseLogin.isNone
    || cnfg.DatabasePassword.isNone

/-! ## Lock sets declared by function names -/

/-- The identifier of the function that `main` calls, as written in the source. -/
def Action.ident : Action → String
  | Action.SetConnection _ _ _ _ => "SetConnection"
  | Action.ConvertFiles => "ConvertFiles"
  | Action.StartCPUProfile => "StartCPUProfile"
  | Action.DumpSQL => "DumpSQL"
  | Action.DoTest => "DoTest"
  | Action.SetupListenForClients_WLuBlWLqWLa => "SetupListenForClients_WLuBlWLqWLa"
  | Action.Poll_Bl => "Poll_Bl"
  | Action.ProcAutosave_RLu => "ProcAutosave_RLu"
  | Action.ProcPurgeOldChunks_WLw => "ProcPurgeOldChunks_WLw"
  | Action.CatchSig => "CatchSig"
  | Action.ManageMonsters_WLwWLuWLqWLmBlWLc => "ManageMonsters_WLwWLuWLqWLmBlWLc"

/-- The six resource domains. -/
inductive Domain where
  | World
  | Users
  | Queue
  | Monsters
  | Blocks
  | Chunks
deriving DecidableEq, Repr

/-- Modelled from the spec: the fixed global order of the resource domain registry,
which is declared outside this source file: World, Users, Queue, Monsters, Blocks,
Chunks. -/
def Domain.rank : Domain → Nat
  | Domain.World => 0
  | Domain.Users => 1
  | Domain.Queue => 2
  | Domain.Monsters => 3
  | Domain.Blocks => 4
  | Domain.Chunks => 5

/-- The part of an identifier after its first underscore, if it has one. -/
def suffixOf : List Char → Option (List Char)
  | [] => none
  | c :: cs => if c = '_' then some cs else suffixOf cs

/-- Modelled from the spec: the letter of a lock tag names a domain: `w` World,
`u` Users, `q` Queue, `m` Monsters, `c` Chunks. Any other letter names none of the six
domains. -/
def domainOfLetter (c : Char) : Option Domain :=
  if c = 'w' then some Domain.World
  else if c = 'u' then some Domain.Users
  else if c = 'q' then some Domain.Queue
  else if c = 'm' then some Domain.Monsters
  else if c = 'c' then some Domain.Chunks
  else none

/-- Modelled from the spec: the naming convention for lock sets, which the source only
uses. A suffix is a run of tags: `WL` and a letter (exclusive access to a domain), `RL`
and a letter (shared access), or `Bl` (Blocks). A tag that names no domain gives
`none`; the result lists the tags in the order in which they are written. -/
def parseTags : List Char → List (Option Domain)
  | [] => []
  | 'W' :: 'L' :: x :: rest => domainOfLetter x :: parseTags rest
  | 'R' :: 'L' :: x :: rest => domainOfLetter x :: parseTags rest
  | 'B' :: 'l' :: rest => some Domain.Blocks :: parseTags rest
  | _ :: rest => none :: parseTags rest

/-- The domains that the name of a function declares, in the order of its suffix; the
empty list for a name without suffix. -/
def declared (ident : String) : List (Option Domain) :=
  match suffixOf ident.toList with
  | none => []
  | some sfx => parseTags sfx

/-- The domains of a declared lock set, leaving out the tags that name no domain. -/
def declaredDomains (ident : String) : List Domain := (declared ident).filterMap id

/-- A declared lock set follows the global order: every tag names a domain and the
domains ascend strictly in the order of the registry. -/
def inGlobalOrder (l : List (Option Domain)) : Bool :=
  l.all Option.isSome && decide ((l.filterMap id).Pairwise (fun a b => a.rank < b.rank))

/-- The functions with a lock suffix that a normal startup of `main` calls. -/
def startedOperations (s : Startup) : List String :=
  ((main s).1.map Action.ident).filter (fun n => (suffixOf n.toList).isSome)

/-- A startup in which nothing fails and no flag ends `main` early. -/
def normalStartup : Startup :=
  { config := some ⟨true, some "localhost", some "ephenation", some "server", some "secret", none⟩,
    convertChunkFiles := false,
    cpuprofile := "",
    createOk := true,
    dumpsql := false,
    tflag := false,
    hostnameOk := true,
    listenOk := true }

/-- Modelled from the spec: a running operation of the resource domain registry, which
is declared outside this source file. The operation acquires the domains of its
declared lock set in the declared order and releases them in reverse: it holds the
first `held` of them and, while `held` is not the whole set, it asks for the next. -/
structure Task where
  ident : String
  held : Nat
deriving DecidableEq, Repr

/-- The domains that a task holds. -/
def Task.holds (t : Task) : List Domain := (declaredDomains t.ident).take t.held

/-- The domain that a task asks for next, if any. -/
def Task.wants (t : Task) : Option Domain := (declaredDomains t.ident).get? t.held

/-- Modelled from the spec: among the tasks that run operations of `ops`, task `t`
waits for task `u` when `u` holds the domain that `t` asks for. Access modes are left
out: shared holders count as blocking, which only adds waits. -/
def waitsFor (ops : List String) (t u : Task) : Prop :=
  t.ident ∈ ops ∧ u.ident ∈ ops ∧ ∃ d, t.wants = some d ∧ d ∈ u.holds

/-- What holds of the removals during the loop, in every environment: there is one call
of `os.Remove` for each load of an unmodified chunk, in the same order, and it names the
file of the loaded coordinate; the folder is the initial folder `fs0` without the files
named in the calls that succeeded; each call stems from an entry whose name decodes to
the coordinate of the file that is named; and each failed call is reported. -/
def RemovalInv (intSize : Nat) (env : Env) (fs0 : Dir) (s : ConvState) : Prop :=
  s.removals.map (fun x => (x.fn, x.name))
    = (s.loads.filter (fun l => !isModified env l.ch)).map
        (fun l => (l.fn, env.DBChunkFileName l.c)) ∧
  s.fs = fs0.filter (fun f => decide (f.name ∉
    (s.removals.filter (fun x => x.ok)).map Removal.name)) ∧
  (∀ x ∈ s.removals, ∃ c, parseName intSize x.fn = Except.ok c ∧
    x.name = env.DBChunkFileName c) ∧
  (∀ x ∈ s.removals, x.ok = false → ConvMsg.failedToRemove x.fn ∈ s.out)

/-- The name is well formed and is the name under which the chunk of its coordinate is
stored. -/
def isChunkFileName (intSize : Nat) (fn : FileName) : Bool :=
  match parseName intSize fn with
  | Except.ok c => decide (DBChunkFileName c = fn)
  | Except.error _ => false

/-- The file is one that a pass of `ConvertFiles` removes: a chunk file under the name
of its coordinate, with the bit `CHF_MODIFIED` clear, that the system lets go. -/
def isRemovable (intSize CHF : Nat) (refused : FileName → Bool) (f : File) : Bool :=
  isChunkFileName intSize f.name && decide (f.flag &&& CHF = 0) && !refused f.name

/-- The files of a folder that are not removable. -/
def survivors (intSize CHF : Nat) (refused : FileName → Bool) (fs0 : Dir) : Dir :=
  fs0.filter (fun f => !isRemovable intSize CHF refused f)

/-- The name is that of a removable file of the folder. -/
def namesRemovable (intSize CHF : Nat) (refused : FileName → Bool) (fs0 : Dir)
    (fn : FileName) : Bool :=
  fs0.any (fun f => decide (f.name = fn) && isRemovable intSize CHF refused f)

/-- How an entry is counted when the folder is `fs`: not at all when its name is
malformed, as modified (`true`) or unmodified (`false`) according to the chunk that is
loaded for its coordinate. -/
def countsAs (intSize CHF : Nat) (absent : chunk) (fs : Dir) (fn : FileName) : Option Bool :=
  match parseName intSize fn with
  | Except.error _ => none
  | Except.ok c => some (decide ((dBFindChunkFromFS absent fs c).flag &&& CHF ≠ 0))

/-- The entry is still there after a pass over `fs0` and counts as modified then. -/
def countedLater (intSize CHF : Nat) (absent : chunk) (refused : FileName → Bool) (fs0 : Dir)
    (fn : FileName) : Bool :=
  !namesRemovable intSize CHF refused fs0 fn &&
    (countsAs intSize CHF absent (survivors intSize CHF refused fs0) fn == some true)

/-- The entry names a removable file of `fs0` that is gone from `fs` already. -/
def removedEarly (intSize CHF : Nat) (refused : FileName → Bool) (fs0 fs : Dir)
    (fn : FileName) : Bool :=
  namesRemovable intSize CHF refused fs0 fn && !fs.any (fun f => decide (f.name = fn))

/-- What holds during a pass over the folder `fs0` when the entries `rest` are still to
come: the folder is a part of `fs0`, no file that is not removable is gone, the name of
each removable file that is still there is among the entries to come, and no entry
comes twice. -/
def PassInv (intSize CHF : Nat) (refused : FileName → Bool) (fs0 : Dir)
    (rest : List FileName) (s : ConvState) : Prop :=
  s.fs.Sublist fs0 ∧
  (∀ f ∈ fs0, isRemovable intSize CHF refused f = false → f ∈ s.fs) ∧
  (∀ f ∈ s.fs, isRemovable intSize CHF refused f = true → f.name ∈ rest) ∧
  rest.Nodup

/-- The operations started by `main` whose declared lock set follows the global order. -/
def orderedOperations : List String :=
  (startedOperations normalStartup).filter (fun n => inGlobalOrder (declared n))

/-- The rank of the domain that a task asks for, and 6, above every rank, for a task
that asks for nothing. -/
def Task.wantRank (t : Task) : Nat :=
  match t.wants with
  | some d => d.rank
  | none => 6

/-- A startup like the normal one, with a configuration file that has no section `sql`. -/
def noSqlStartup : Startup :=
  { normalStartup with config := some ⟨false, none, none, none, none, none⟩ }

/-- A startup like the normal one, whose configuration file cannot be read. -/
def noConfigStartup : Startup := { normalStartup with config := none }

/-- A startup like the normal one, in which setting up the listener fails. -/
def noListenStartup : Startup := { normalStartup with listenOk := false }

/-! ## Sample inputs -/

/-- A chunk folder with the unmodified chunk (1,2,3) in its file `1,2,3` and a second
file `+1,2,3`, whose name decodes to the same coordinate. The listing is in the order of
the names. -/
def aliasDir : Dir := [⟨"+1,2,3".toList, 0⟩, ⟨"1,2,3".toList, 0⟩]

/-- A chunk folder whose only file is `+1,2,3`. -/
def plusDir : Dir := [⟨"+1,2,3".toList, 0⟩]

/-- A chunk folder with a modified chunk, an unmodified chunk and a file that is not a
chunk file. -/
def mixedDir : Dir := [⟨"-4,0,7".toList, 1⟩, ⟨"1,2,3".toList, 0⟩, ⟨"readme.txt".toList, 0⟩]

/-- A codec whose decoders succeed: the overlay leaves the record as it is, the blob is
the list of item identifiers, and cleaning up drops the identifiers from 100 on. -/
def plainCodec : Codec Int Nat (List Nat) Nat Unit :=
  { Unmarshal := fun _ pl => (pl, none)
    Unpack := fun _ blob => (blob, none)
    CleanUp := fun inv => inv.filter (fun i => decide (i < 100)) }

/-- A codec whose decoders both report an error, the overlay leaving the record as it
is and the blob yielding what could be read of it. -/
def failingCodec : Codec Int Nat (List Nat) Nat Unit :=
  { Unmarshal := fun _ pl => (pl, some "unexpected end of JSON input")
    Unpack := fun _ blob => (blob.take 1, some "short blob")
    CleanUp := fun inv => inv.filter (fun i => decide (i < 100)) }

/-- A player at position (5,6,7) with the given home and revive spawn points. -/
def samplePlayer (home revive : user_coord Int) : player Int Nat (List Nat) Nat Unit :=
  { name := "avatar", coord := ⟨5, 6, 7⟩, flying := false, climbing := false, dead := false,
    dirHor := 0, dirVert := 0, adminLevel := 0, level := 1, exp := 0, hitPoints := 1,
    mana := 1, numKill := 0, homeSP := home, reviveSP := revive, maxchunks := 10,
    blockAdd := 0, blockRem := 0, timeOnline := 0, head := 0, body := 0,
    targetCoor := ⟨0, 0, 0⟩, inventory := [3], logonTimer := 0, other := () }

/-- A row of the table `avatars` with the given name and flag columns. -/
def sampleRow (name : String) (isFlying isClimbing isDead : Int) : AvatarRow Int Nat :=
  { name := name, jsonstring := "\x7b\x7d", id := 1, PositionX := 5, PositionY := 6,
    PositionZ := 7, isFlying := isFlying, isClimbing := isClimbing, isDead := isDead,
    DirHor := 0, DirVert := 0, AdminLevel := 0, Level := 1, Experience := 0, HitPoints := 1,
    Mana := 1, Kills := 0, HomeX := 1, HomeY := 1, HomeZ := 1, ReviveX := 1, ReviveY := 1,
    ReviveZ := 1, maxchunks := 10, BlocksAdded := 0, BlocksRemoved := 0, TimeOnline := 0,
    HeadType := 0, BodyType := 0, inventory := [], TScoreTotal := 0, TScoreBalance := 0,
    TScoreTime := 0, TargetX := 0, TargetY := 0, TargetZ := 0 }

end Pheenadv

/-! ## Properties -/

namespace Pheenadv

section DumpTheorems

variable {α V Inv T Ov : Type}

theorem isUnset_iff [Zero α] [DecidableEq α] (c : user_coord α) :
    isUnset c = true ↔ c = ⟨0, 0, 0⟩ := by
  cases c with
  | mk x y z => simp [isUnset, and_assoc]

theorem unmarshalStep_fst (cd : Codec α V Inv T Ov) (now : T) (pl : player α V Inv T Ov)
    (packedline : String) :
    (unmarshalStep cd now pl packedline).1
      = (cd.Unmarshal packedline { pl with logonTimer := now }).1 := by
  unfold unmarshalStep
  rcases h : cd.Unmarshal packedline { pl with logonTimer := now } with ⟨q, e⟩
  cases e <;> simp [h]

theorem inventoryStep_fst (cd : Codec α V Inv T Ov) (verboseFlag : Int)
    (pl : player α V Inv T Ov) (packedInv : List Nat) :
    (inventoryStep cd verboseFlag pl packedInv).1
      = if packedInv.length > 0 then
          { pl with inventory := cd.CleanUp (cd.Unpack pl.inventory packedInv).1 }
        else pl := by
  unfold inventoryStep
  rcases h : cd.Unpack pl.inventory packedInv with ⟨inv, e⟩
  by_cases hl : packedInv.length > 0 <;> by_cases hv : verboseFlag > 1 <;>
    cases e <;> simp [hl, hv]

theorem unmarshalStep_log (cd : Codec α V Inv T Ov) (now : T) (pl : player α V Inv T Ov)
    (packedline : String) :
    ∀ m ∈ (unmarshalStep cd now pl packedline).2, m.isUser = false := by
  intro m hm
  simp only [unmarshalStep] at hm
  split at hm
  · simp at hm
    rw [hm]
    rfl
  · simp at hm

theorem inventoryStep_log (cd : Codec α V Inv T Ov) (verboseFlag : Int)
    (pl : player α V Inv T Ov) (packedInv : List Nat) :
    ∀ m ∈ (inventoryStep cd verboseFlag pl packedInv).2, m.isUser = false := by
  intro m hm
  simp only [inventoryStep] at hm
  rcases hp : cd.Unpack pl.inventory packedInv with ⟨inv, e⟩
  rw [hp] at hm
  by_cases hl : packedInv.length > 0 <;> by_cases hv : verboseFlag > 1 <;>
    cases e <;> simp [hl, hv] at hm
  all_goals first
    | (rcases hm with hm | hm <;> (rw [hm]; rfl))
    | (rw [hm]; rfl)

theorem decoded_eq (cd : Codec α V Inv T Ov) (verboseFlag : Int) (now : T)
    (pl : player α V Inv T Ov) (packedline : String) (packedInv : List Nat) :
    decoded cd verboseFlag now pl packedline packedInv
      = if packedInv.length > 0 then
          { (cd.Unmarshal packedline { pl with logonTimer := now }).1 with
            inventory := cd.CleanUp (cd.Unpack
              (cd.Unmarshal packedline { pl with logonTimer := now }).1.inventory packedInv).1 }
        else (cd.Unmarshal packedline { pl with logonTimer := now }).1 := by
  unfold decoded
  rw [inventoryStep_fst, unmarshalStep_fst]

theorem DumpSQLPlayer_fst [Zero α] [DecidableEq α] (cd : Codec α V Inv T Ov)
    (verboseFlag : Int) (now : T) (pl : player α V Inv T Ov) (packedline : String)
    (packedInv : List Nat) :
    (DumpSQLPlayer cd verboseFlag now pl packedline packedInv).1
      = spawnStep (decoded cd verboseFlag now pl packedline packedInv) := rfl

/-- C1: in `DumpSQLPlayer`, when the revive spawn point of the decoded record is
(0,0,0), the revive and the home spawn point both equal the position `coord` on return;
when it is not (0,0,0), the revive and the home spawn point are on return what they
were before the spawn-point step. The position and the spawn points of the decoded
record are those that the JSON overlay left, the inventory step does not touch them. -/
theorem DumpSQLPlayer_default_spawn_point [Zero α] [DecidableEq α] (cd : Codec α V Inv T Ov)
    (verboseFlag : Int) (now : T) (pl : player α V Inv T Ov) (packedline : String)
    (packedInv : List Nat) :
    (((decoded cd verboseFlag now pl packedline packedInv).reviveSP = ⟨0, 0, 0⟩ →
        (DumpSQLPlayer cd verboseFlag now pl packedline packedInv).1.reviveSP
          = (DumpSQLPlayer cd verboseFlag now pl packedline packedInv).1.coord ∧
        (DumpSQLPlayer cd verboseFlag now pl packedline packedInv).1.homeSP
          = (DumpSQLPlayer cd verboseFlag now pl packedline packedInv).1.coord) ∧
      ((decoded cd verboseFlag now pl packedline packedInv).reviveSP ≠ ⟨0, 0, 0⟩ →
        (DumpSQLPlayer cd verboseFlag now pl packedline packedInv).1.reviveSP
          = (decoded cd verboseFlag now pl packedline packedInv).reviveSP ∧
        (DumpSQLPlayer cd verboseFlag now pl packedline packedInv).1.homeSP
          = (decoded cd verboseFlag now pl packedline packedInv).homeSP)) ∧
    (DumpSQLPlayer cd verboseFlag now pl packedline packedInv).1.coord
      = (cd.Unmarshal packedline { pl with logonTimer := now }).1.coord ∧
    (decoded cd verboseFlag now pl packedline packedInv).reviveSP
      = (cd.Unmarshal packedline { pl with logonTimer := now }).1.reviveSP ∧
    (decoded cd verboseFlag now pl packedline packedInv).homeSP
      = (cd.Unmarshal packedline { pl with logonTimer := now }).1.homeSP := by
  rw [DumpSQLPlayer_fst]
  have hd := decoded_eq cd verboseFlag now pl packedline packedInv
  generalize decoded cd verboseFlag now pl packedline packedInv = d at hd ⊢
  refine ⟨⟨?_, ?_⟩, ?_, ?_, ?_⟩
  · intro h
    have hz : isUnset d.reviveSP = true := (isUnset_iff _).2 h
    simp [spawnStep, hz]
  · intro h
    have hz : isUnset d.reviveSP = false := by
      cases hb : isUnset d.reviveSP with
      | false => rfl
      | true => exact absurd ((isUnset_iff _).1 hb) h
    simp [spawnStep, hz]
  · have hc : (spawnStep d).coord = d.coord := by
      unfold spawnStep
      split <;> rfl
    rw [hc, hd]
    split <;> rfl
  · rw [hd]
    split <;> rfl
  · rw [hd]
    split <;> rfl

/-- Witness of C1: a record without revive spawn point gets its position (5,6,7) for
both spawn points, and a record with the revive spawn point (1,2,3) keeps it. -/
theorem DumpSQLPlayer_default_spawn_point_witness :
    ((DumpSQLPlayer plainCodec 0 0 (samplePlayer ⟨9, 9, 9⟩ ⟨0, 0, 0⟩) "" []).1.reviveSP
        = ⟨5, 6, 7⟩ ∧
      (DumpSQLPlayer plainCodec 0 0 (samplePlayer ⟨9, 9, 9⟩ ⟨0, 0, 0⟩) "" []).1.homeSP
        = ⟨5, 6, 7⟩) ∧
    ((DumpSQLPlayer plainCodec 0 0 (samplePlayer ⟨9, 9, 9⟩ ⟨1, 2, 3⟩) "" [4]).1.reviveSP
        = ⟨1, 2, 3⟩ ∧
      (DumpSQLPlayer plainCodec 0 0 (samplePlayer ⟨9, 9, 9⟩ ⟨1, 2, 3⟩) "" [4]).1.homeSP
        = ⟨9, 9, 9⟩) :=
  ⟨(DumpSQLPlayer_default_spawn_point plainCodec 0 0
      (samplePlayer ⟨9, 9, 9⟩ ⟨0, 0, 0⟩) "" []).1.1 (by decide),
   (DumpSQLPlayer_default_spawn_point plainCodec 0 0
      (samplePlayer ⟨9, 9, 9⟩ ⟨1, 2, 3⟩) "" [4]).1.2 (by decide)⟩

/-- C2, counterexample: a record at position (5,6,7) whose home spawn point is (0,0,0)
and whose revive spawn point is (1,0,0) returns from `DumpSQLPlayer` with the home
spawn point still (0,0,0), so it is not true that each all-zero spawn point equals the
position on return. -/
theorem DumpSQLPlayer_home_left_unset :
    ¬ (((decoded plainCodec 0 0 (samplePlayer ⟨0, 0, 0⟩ ⟨1, 0, 0⟩) "" []).homeSP = ⟨0, 0, 0⟩ →
          (DumpSQLPlayer plainCodec 0 0 (samplePlayer ⟨0, 0, 0⟩ ⟨1, 0, 0⟩) "" []).1.homeSP
            = (DumpSQLPlayer plainCodec 0 0 (samplePlayer ⟨0, 0, 0⟩ ⟨1, 0, 0⟩) "" []).1.coord) ∧
        ((decoded plainCodec 0 0 (samplePlayer ⟨0, 0, 0⟩ ⟨1, 0, 0⟩) "" []).reviveSP = ⟨0, 0, 0⟩ →
          (DumpSQLPlayer plainCodec 0 0 (samplePlayer ⟨0, 0, 0⟩ ⟨1, 0, 0⟩) "" []).1.reviveSP
            = (DumpSQLPlayer plainCodec 0 0 (samplePlayer ⟨0, 0, 0⟩ ⟨1, 0, 0⟩) "" []).1.coord)) := by
  intro h
  exact absurd (h.1 (by decide)) (by decide)

/-- C2, amended: in `DumpSQLPlayer` the revive spawn point alone decides. When it is
(0,0,0) before the spawn-point step, the revive and the home spawn point both equal the
position `coord` on return, whatever the home spawn point was. When it is not (0,0,0),
the home spawn point is left as it was, also when it is (0,0,0). On return the revive
spawn point is (0,0,0) only for a record whose position is (0,0,0). -/
theorem DumpSQLPlayer_spawn_points_follow_revive [Zero α] [DecidableEq α]
    (cd : Codec α V Inv T Ov) (verboseFlag : Int) (now : T) (pl : player α V Inv T Ov)
    (packedline : String) (packedInv : List Nat) :
    ((decoded cd verboseFlag now pl packedline packedInv).reviveSP = ⟨0, 0, 0⟩ →
      (DumpSQLPlayer cd verboseFlag now pl packedline packedInv).1.reviveSP
        = (DumpSQLPlayer cd verboseFlag now pl packedline packedInv).1.coord ∧
      (DumpSQLPlayer cd verboseFlag now pl packedline packedInv).1.homeSP
        = (DumpSQLPlayer cd verboseFlag now pl packedline packedInv).1.coord) ∧
    ((decoded cd verboseFlag now pl packedline packedInv).reviveSP ≠ ⟨0, 0, 0⟩ →
      (DumpSQLPlayer cd verboseFlag now pl packedline packedInv).1.homeSP
        = (decoded cd verboseFlag now pl packedline packedInv).homeSP) ∧
    ((DumpSQLPlayer cd verboseFlag now pl packedline packedInv).1.reviveSP = ⟨0, 0, 0⟩ →
      (DumpSQLPlayer cd verboseFlag now pl packedline packedInv).1.coord = ⟨0, 0, 0⟩) := by
  rw [DumpSQLPlayer_fst]
  generalize decoded cd verboseFlag now pl packedline packedInv = d
  cases hb : isUnset d.reviveSP with
  | true =>
    have hz := (isUnset_iff _).1 hb
    refine ⟨?_, ?_, ?_⟩
    · intro _
      simp [spawnStep, hb]
    · intro h
      exact absurd hz h
    · simp [spawnStep, hb]
  | false =>
    have hz : d.reviveSP ≠ ⟨0, 0, 0⟩ := by
      intro h
      rw [(isUnset_iff _).2 h] at hb
      exact Bool.noConfusion hb
    refine ⟨?_, ?_, ?_⟩
    · intro h
      exact absurd h hz
    · intro _
      simp [spawnStep, hb]
    · intro h
      simp [spawnStep, hb] at h
      exact absurd h hz

/-- Witness of C2 amended: the record with home (0,0,0) and revive (1,0,0) keeps its
home spawn point (0,0,0), and the record with revive (0,0,0) gets the position. -/
theorem DumpSQLPlayer_spawn_points_follow_revive_witness :
    (DumpSQLPlayer plainCodec 0 0 (samplePlayer ⟨0, 0, 0⟩ ⟨1, 0, 0⟩) "" []).1.homeSP
      = ⟨0, 0, 0⟩ ∧
    ((DumpSQLPlayer plainCodec 0 0 (samplePlayer ⟨2, 2, 2⟩ ⟨0, 0, 0⟩) "" []).1.reviveSP
        = ⟨5, 6, 7⟩ ∧
      (DumpSQLPlayer plainCodec 0 0 (samplePlayer ⟨2, 2, 2⟩ ⟨0, 0, 0⟩) "" []).1.homeSP
        = ⟨5, 6, 7⟩) :=
  ⟨(DumpSQLPlayer_spawn_points_follow_revive plainCodec 0 0
      (samplePlayer ⟨0, 0, 0⟩ ⟨1, 0, 0⟩) "" []).2.1 (by decide),
   (DumpSQLPlayer_spawn_points_follow_revive plainCodec 0 0
      (samplePlayer ⟨2, 2, 2⟩ ⟨0, 0, 0⟩) "" []).1 (by decide)⟩

theorem spawnStep_eq [Zero α] [DecidableEq α] (d : player α V Inv T Ov) :
    spawnStep d
      = { d with
          reviveSP := if d.reviveSP = ⟨0, 0, 0⟩ then d.coord else d.reviveSP
          homeSP := if d.reviveSP = ⟨0, 0, 0⟩ then d.coord else d.homeSP } := by
  by_cases hz : d.reviveSP = ⟨0, 0, 0⟩
  · have hb : isUnset d.reviveSP = true := (isUnset_iff _).2 hz
    unfold spawnStep
    rw [if_pos hb, if_pos hz, if_pos hz]
  · have hb : ¬ isUnset d.reviveSP = true := fun h => hz ((isUnset_iff _).1 h)
    unfold spawnStep
    rw [if_neg hb, if_neg hz, if_neg hz]

/-- C8: a decode failure does not end `DumpSQLPlayer`. For every record and every
codec, whether or not the overlay or the blob decodes, the record on return is the
record `u` that `json.Unmarshal` left, with three fields set. The inventory: with a blob
that is not empty it is `CleanUp` of what `Unpack` left, with an empty blob it is the
inventory of `u`. The revive and the home spawn point: both are the position of `u`
when the revive spawn point of `u` is (0,0,0), and both are those of `u` when it is not.
The last thing written is the record as it is on return, and it is written once. -/
theorem DumpSQLPlayer_decode_failure_not_fatal [Zero α] [DecidableEq α]
    (cd : Codec α V Inv T Ov) (verboseFlag : Int) (now : T) (pl : player α V Inv T Ov)
    (packedline : String) (packedInv : List Nat) :
    (DumpSQLPlayer cd verboseFlag now pl packedline packedInv).1
      = { (cd.Unmarshal packedline { pl with logonTimer := now }).1 with
          inventory :=
            if packedInv.length > 0 then
              cd.CleanUp (cd.Unpack
                (cd.Unmarshal packedline { pl with logonTimer := now }).1.inventory packedInv).1
            else (cd.Unmarshal packedline { pl with logonTimer := now }).1.inventory
          reviveSP :=
            if (cd.Unmarshal packedline { pl with logonTimer := now }).1.reviveSP = ⟨0, 0, 0⟩
            then (cd.Unmarshal packedline { pl with logonTimer := now }).1.coord
            else (cd.Unmarshal packedline { pl with logonTimer := now }).1.reviveSP
          homeSP :=
            if (cd.Unmarshal packedline { pl with logonTimer := now }).1.reviveSP = ⟨0, 0, 0⟩
            then (cd.Unmarshal packedline { pl with logonTimer := now }).1.coord
            else (cd.Unmarshal packedline { pl with logonTimer := now }).1.homeSP } ∧
    (∃ logged, (DumpSQLPlayer cd verboseFlag now pl packedline packedInv).2
        = logged ++ [DumpMsg.user (DumpSQLPlayer cd verboseFlag now pl packedline packedInv).1]
      ∧ ∀ m ∈ logged, ∀ q, m ≠ DumpMsg.user q) := by
  refine ⟨?_, ?_⟩
  · rw [DumpSQLPlayer_fst, decoded_eq, spawnStep_eq]
    split <;> rfl
  · refine ⟨(unmarshalStep cd now pl packedline).2
      ++ (inventoryStep cd verboseFlag (unmarshalStep cd now pl packedline).1 packedInv).2,
      rfl, ?_⟩
    intro m hm q hq
    have hu : m.isUser = false := by
      rcases List.mem_append.1 hm with h | h
      · exact unmarshalStep_log cd now pl packedline m h
      · exact inventoryStep_log cd verboseFlag _ packedInv m h
    rw [hq] at hu
    exact Bool.noConfusion hu

/-- Witness of C8: with a codec whose two decoders report an error, `DumpSQLPlayer`
still returns. The one item that could be unpacked is kept; a record without revive
spawn point gets the position (5,6,7) for both spawn points, and a record with the
revive spawn point (1,2,3) and the home spawn point (9,9,9) keeps both. -/
theorem DumpSQLPlayer_decode_failure_not_fatal_witness :
    ((DumpSQLPlayer failingCodec 0 0 (samplePlayer ⟨0, 0, 0⟩ ⟨0, 0, 0⟩) "\x7b" [7, 200]).1
        = { samplePlayer ⟨5, 6, 7⟩ ⟨5, 6, 7⟩ with inventory := [7] }) ∧
    ((DumpSQLPlayer failingCodec 0 0 (samplePlayer ⟨9, 9, 9⟩ ⟨1, 2, 3⟩) "\x7b" []).1
        = samplePlayer ⟨9, 9, 9⟩ ⟨1, 2, 3⟩) :=
  ⟨(DumpSQLPlayer_decode_failure_not_fatal failingCodec 0 0
      (samplePlayer ⟨0, 0, 0⟩ ⟨0, 0, 0⟩) "\x7b" [7, 200]).1,
    (DumpSQLPlayer_decode_failure_not_fatal failingCodec 0 0
      (samplePlayer ⟨9, 9, 9⟩ ⟨1, 2, 3⟩) "\x7b" []).1⟩

/-- The flags of a record are not touched by `DumpSQLPlayer` when the JSON decoder does
not touch them. -/
theorem DumpSQLPlayer_flying [Zero α] [DecidableEq α] (cd : Codec α V Inv T Ov)
    (hU : ∀ s p, (cd.Unmarshal s p).1.flying = p.flying)
    (verboseFlag : Int) (now : T) (pl : player α V Inv T Ov) (packedline : String)
    (packedInv : List Nat) :
    (DumpSQLPlayer cd verboseFlag now pl packedline packedInv).1.flying = pl.flying := by
  rw [DumpSQLPlayer_fst, decoded_eq]
  have hi : ∀ d : player α V Inv T Ov, (spawnStep d).flying = d.flying := by
    intro d
    unfold spawnStep
    split <;> rfl
  rw [hi]
  split
  · exact hU _ _
  · exact hU _ _

/-- C10, the code at the failing input: `DumpSQL` keeps one record `pl` for all rows and
only ever sets its flags. For every codec whose JSON decoder leaves the field `flying`
alone, when a row with `isFlying = 1` is followed by a row with `isFlying = 0`, the
record passed to `DumpSQLPlayer` for the second row has `flying = true`. -/
theorem DumpSQL_flying_carried_over [Zero α] [DecidableEq α] (cd : Codec α V Inv T Ov)
    (hU : ∀ s p, (cd.Unmarshal s p).1.flying = p.flying)
    (verboseFlag : Int) (now : T) (CnfgMaxOwnChunk : Int) (pl0 : player α V Inv T Ov)
    (r1 r2 : AvatarRow α V) (h1 : r1.isFlying = 1) (h2 : r2.isFlying = 0) :
    (DumpSQL cd verboseFlag now CnfgMaxOwnChunk true pl0 [some r1, some r2]).passed.map
      (fun p => p.flying) = [true, true] := by
  have hpost : ∀ (p : player α V Inv T Ov) (r : AvatarRow α V),
      (postProcess CnfgMaxOwnChunk p r).flying = (p.flying || decide (r.isFlying = 1)) := by
    intro p r
    unfold postProcess
    by_cases a : r.isFlying = 1 <;> by_cases b : r.isClimbing = 1 <;>
      by_cases c : r.isDead = 1 <;> simp [a, b, c] <;> split <;> simp
  have hbind : ∀ (p : player α V Inv T Ov) (r : AvatarRow α V),
      (bindRow p r).flying = p.flying := fun _ _ => rfl
  simp only [DumpSQL, dumpLoop, if_true, List.nil_append, List.map_cons, List.map_nil,
    List.cons_append]
  rw [hpost, hpost, hbind, hbind, DumpSQLPlayer_flying cd hU, hpost, hbind]
  simp [h1, h2]

/-- Witness of C10: with rows for `ann` (isFlying 1) and `bob` (isFlying 0) the record
passed for `bob` says that he flies. -/
theorem DumpSQL_flying_carried_over_witness :
    (sampleRow "bob" 0 0 0).isFlying = 0 ∧
    (DumpSQL plainCodec 0 0 20 true (samplePlayer ⟨0, 0, 0⟩ ⟨0, 0, 0⟩)
      [some (sampleRow "ann" 1 0 0), some (sampleRow "bob" 0 0 0)]).passed.map
        (fun p => (p.name, p.flying)) = [("ann", true), ("bob", true)] :=
  ⟨rfl, by
    have h := DumpSQL_flying_carried_over plainCodec (fun _ _ => rfl) 0 0 20
      (samplePlayer ⟨0, 0, 0⟩ ⟨0, 0, 0⟩) (sampleRow "ann" 1 0 0) (sampleRow "bob" 0 0 0) rfl rfl
    revert h
    decide⟩

end DumpTheorems

section ConvertTheorems

theorem digitVal_digitChar (d : Nat) (h : d < 10) : digitVal (digitChar d) = some d := by
  interval_cases d <;> rfl

theorem parseDigits_append (l1 l2 : List Char) (acc : Nat) :
    parseDigits (l1 ++ l2) acc = (parseDigits l1 acc).bind (parseDigits l2) := by
  induction l1 generalizing acc with
  | nil => rfl
  | cons c cs ih =>
    simp only [List.cons_append, parseDigits]
    cases digitVal c with
    | none => rfl
    | some d => exact ih _

theorem parseDigits_natDigits (fuel n : Nat) (h : n < fuel) :
    parseDigits (natDigits fuel n) 0 = some n := by
  induction fuel generalizing n with
  | zero => omega
  | succ fuel ih =>
    unfold natDigits
    split
    · rename_i hn
      simp [parseDigits, digitVal_digitChar n hn]
    · rename_i hn
      have h10 : n / 10 < fuel := by omega
      rw [parseDigits_append, ih _ h10]
      simp only [Option.bind, parseDigits, digitVal_digitChar (n % 10) (Nat.mod_lt _ (by omega))]
      congr 1
      omega

theorem natDigits_isDigit (fuel n : Nat) :
    ∀ c ∈ natDigits fuel n, ∃ d, d < 10 ∧ c = digitChar d := by
  induction fuel generalizing n with
  | zero => simp [natDigits]
  | succ fuel ih =>
    intro c hc
    unfold natDigits at hc
    split at hc
    · rename_i hn
      simp at hc
      exact ⟨n, hn, hc⟩
    · rcases List.mem_append.1 hc with h | h
      · exact ih _ c h
      · simp at h
        exact ⟨n % 10, Nat.mod_lt _ (by omega), h⟩

theorem natDigits_ne_nil (fuel n : Nat) : natDigits (fuel + 1) n ≠ [] := by
  unfold natDigits
  split <;> simp

theorem digitChar_not_special (d : Nat) (h : d < 10) :
    digitChar d ≠ ',' ∧ digitChar d ≠ '-' ∧ digitChar d ≠ '+' := by
  interval_cases d <;> decide

theorem Atoi_unsigned (intSize : Nat) (s : List Char) (n : Nat) (hne : s ≠ [])
    (hd : ∀ c ∈ s, c ≠ '-' ∧ c ≠ '+') (hp : parseDigits s 0 = some n)
    (hr : n < 2 ^ (intSize - 1)) : Atoi intSize s = some (n : Int) := by
  cases s with
  | nil => exact absurd rfl hne
  | cons c cs =>
    have hc := hd c (List.mem_cons_self _ _)
    unfold Atoi
    split
    · rename_i r heq
      cases heq
      exact absurd rfl hc.1
    · rename_i r heq
      cases heq
      exact absurd rfl hc.2
    · simp [hp, hr]

theorem Atoi_negative (intSize : Nat) (s : List Char) (n : Nat) (hne : s ≠ [])
    (hp : parseDigits s 0 = some n) (hr : n ≤ 2 ^ (intSize - 1)) :
    Atoi intSize ('-' :: s) = some (-(n : Int)) := by
  unfold Atoi
  simp [hne, hp, hr]

/-- `Atoi` reads back what `itoa` writes, for every integer that fits `int`. -/
theorem Atoi_itoa (intSize : Nat) (x : Int) (hlo : -(2 ^ (intSize - 1) : Int) ≤ x)
    (hhi : x < (2 ^ (intSize - 1) : Int)) : Atoi intSize (itoa x) = some x := by
  cases x with
  | ofNat n =>
    have hr : n < 2 ^ (intSize - 1) := by
      have : (n : Int) < ((2 ^ (intSize - 1) : Nat) : Int) := by
        push_cast
        exact hhi
      exact_mod_cast this
    have := Atoi_unsigned intSize (natDigits (n + 1) n) n (natDigits_ne_nil n n)
      (fun c hc => by
        obtain ⟨d, hd, rfl⟩ := natDigits_isDigit _ _ c hc
        exact (digitChar_not_special d hd).2)
      (parseDigits_natDigits _ _ (by omega)) hr
    simpa [itoa] using this
  | negSucc n =>
    have hr : n + 1 ≤ 2 ^ (intSize - 1) := by
      have h1 : ((n : Int) + 1) ≤ 2 ^ (intSize - 1) := by
        have := hlo
        rw [Int.negSucc_eq] at this
        linarith
      exact_mod_cast h1
    have key := Atoi_negative intSize (natDigits (n + 2) (n + 1)) (n + 1) (natDigits_ne_nil _ _)
      (parseDigits_natDigits _ _ (by omega)) hr
    have e : Int.negSucc n = -((n + 1 : Nat) : Int) := by
      rw [Int.negSucc_eq]
      push_cast
      rfl
    show Atoi intSize ('-' :: natDigits (n + 2) (n + 1)) = some (Int.negSucc n)
    rw [e]
    exact key

theorem itoa_no_comma (x : Int) : ∀ c ∈ itoa x, c ≠ ',' := by
  intro c hc
  cases x with
  | ofNat n =>
    obtain ⟨d, hd, rfl⟩ := natDigits_isDigit _ _ c hc
    exact (digitChar_not_special d hd).1
  | negSucc n =>
    rcases List.mem_cons.1 hc with rfl | h
    · decide
    · obtain ⟨d, hd, rfl⟩ := natDigits_isDigit _ _ c h
      exact (digitChar_not_special d hd).1

theorem Split_no_sep (s : List Char) (sep : Char) (h : ∀ c ∈ s, c ≠ sep) :
    Split s sep = [s] := by
  induction s with
  | nil => rfl
  | cons c cs ih =>
    have hc : c ≠ sep := h c (List.mem_cons_self _ _)
    have := ih (fun d hd => h d (List.mem_cons_of_mem _ hd))
    simp [Split, hc, this]

theorem Split_append_sep (s rest : List Char) (sep : Char) (h : ∀ c ∈ s, c ≠ sep) :
    Split (s ++ sep :: rest) sep = s :: Split rest sep := by
  induction s with
  | nil => simp [Split]
  | cons c cs ih =>
    have hc : c ≠ sep := h c (List.mem_cons_self _ _)
    have := ih (fun d hd => h d (List.mem_cons_of_mem _ hd))
    simp [Split, hc, this]

theorem int32_range (x : Int) : -(2 ^ 31 : Int) ≤ int32 x ∧ int32 x < (2 ^ 31 : Int) := by
  unfold int32
  have h1 := Int.emod_nonneg (x + 2 ^ 31) (by norm_num : (2 ^ 32 : Int) ≠ 0)
  have h2 := Int.emod_lt_of_pos (x + 2 ^ 31) (by norm_num : (0 : Int) < 2 ^ 32)
  constructor <;> omega

theorem int32_of_range (x : Int) (hlo : -(2 ^ 31 : Int) ≤ x) (hhi : x < (2 ^ 31 : Int)) :
    int32 x = x := by
  unfold int32
  rw [Int.emod_eq_of_lt (by omega) (by omega)]
  omega

/-- A name of three parts that `Atoi` reads as integers that fit `int32` is decoded to
the coordinate of exactly these integers. -/
theorem parseName_exact (intSize : Nat) (fn a b d : FileName) (x y z : Int)
    (hsplit : Split fn ',' = [a, b, d])
    (ha : Atoi intSize a = some x) (hb : Atoi intSize b = some y) (hd : Atoi intSize d = some z)
    (hx : -(2 ^ 31 : Int) ≤ x ∧ x < (2 ^ 31 : Int))
    (hy : -(2 ^ 31 : Int) ≤ y ∧ y < (2 ^ 31 : Int))
    (hz : -(2 ^ 31 : Int) ≤ z ∧ z < (2 ^ 31 : Int)) :
    parseName intSize fn = Except.ok ⟨x, y, z⟩ := by
  unfold parseName
  rw [hsplit]
  simp only [ha, hb, hd]
  rw [int32_of_range _ hx.1 hx.2, int32_of_range _ hy.1 hy.2, int32_of_range _ hz.1 hz.2]

/-- The name under which a chunk is stored decodes to the coordinate of that chunk:
for every coordinate of `int32` components and an `int` of at least 32 bits. -/
theorem parseName_DBChunkFileName (intSize : Nat) (hs : 32 ≤ intSize) (c : CC)
    (hX : -(2 ^ 31 : Int) ≤ c.X ∧ c.X < (2 ^ 31 : Int))
    (hY : -(2 ^ 31 : Int) ≤ c.Y ∧ c.Y < (2 ^ 31 : Int))
    (hZ : -(2 ^ 31 : Int) ≤ c.Z ∧ c.Z < (2 ^ 31 : Int)) :
    parseName intSize (DBChunkFileName c) = Except.ok c := by
  have hpow : (2 ^ 31 : Int) ≤ 2 ^ (intSize - 1) :=
    pow_le_pow_right₀ (by norm_num) (by omega)
  have hsplit : Split (DBChunkFileName c) ',' = [itoa c.X, itoa c.Y, itoa c.Z] := by
    have e : DBChunkFileName c = itoa c.X ++ ',' :: (itoa c.Y ++ ',' :: itoa c.Z) := by
      simp [DBChunkFileName]
    rw [e]
    rw [Split_append_sep _ _ _ (itoa_no_comma _), Split_append_sep _ _ _ (itoa_no_comma _),
      Split_no_sep _ _ (itoa_no_comma _)]
  have aX := Atoi_itoa intSize c.X (by omega) (by omega)
  have aY := Atoi_itoa intSize c.Y (by omega) (by omega)
  have aZ := Atoi_itoa intSize c.Z (by omega) (by omega)
  unfold parseName
  rw [hsplit]
  simp only [aX, aY, aZ]
  rw [int32_of_range _ hX.1 hX.2, int32_of_range _ hY.1 hY.2, int32_of_range _ hZ.1 hZ.2]


theorem parseName_wellFormed (intSize : Nat) (fn : FileName) :
    (∃ c, parseName intSize fn = Except.ok c) ↔ wellFormed intSize fn = true := by
  unfold parseName wellFormed
  generalize Split fn ',' = l
  rcases l with _ | ⟨a, _ | ⟨b, _ | ⟨c, _ | ⟨d, t⟩⟩⟩⟩
  · simp
  · simp
  · simp
  · cases ha : Atoi intSize a <;> cases hb : Atoi intSize b <;>
      cases hc : Atoi intSize c <;> simp [ha, hb, hc]
  · simp

theorem parseName_error_not_wellFormed (intSize : Nat) (fn : FileName) (msg : ConvMsg)
    (h : parseName intSize fn = Except.error msg) : wellFormed intSize fn = false := by
  cases hw : wellFormed intSize fn with
  | false => rfl
  | true =>
    obtain ⟨c, hc⟩ := (parseName_wellFormed intSize fn).2 hw
    rw [hc] at h
    cases h

theorem parseName_ok_wellFormed (intSize : Nat) (fn : FileName) (c : CC)
    (h : parseName intSize fn = Except.ok c) : wellFormed intSize fn = true :=
  (parseName_wellFormed intSize fn).1 ⟨c, h⟩

theorem osRemove_sublist (refused : Bool) (fs : Dir) (name : FileName) :
    (osRemove refused fs name).1.Sublist fs := by
  unfold osRemove
  split
  · exact List.filter_sublist _
  · exact List.Sublist.refl _

/-- What one pass of the loop adds to a state: the loads `new`, one for each well-formed
entry and in the order of the listing, and the counters, which count them. -/
theorem convertLoop_loads (intSize : Nat) (env : Env) (dir : List FileName) (s : ConvState) :
    ∃ new : List Load,
      (convertLoop intSize env dir s).loads = s.loads ++ new ∧
      new.map Load.fn = dir.filter (wellFormed intSize) ∧
      (∀ l ∈ new, parseName intSize l.fn = Except.ok l.c ∧
        ∃ fs1 : Dir, fs1.Sublist s.fs ∧ l.ch = env.dBFindChunkFromFS fs1 l.c) ∧
      (convertLoop intSize env dir s).mod
        = s.mod + new.countP (fun l => isModified env l.ch) ∧
      (convertLoop intSize env dir s).unmod
        = s.unmod + new.countP (fun l => !isModified env l.ch) ∧
      (convertLoop intSize env dir s).fs.Sublist s.fs := by
  induction dir generalizing s with
  | nil => exact ⟨[], by simp [convertLoop]⟩
  | cons fn rest ih =>
    have hstep : convertLoop intSize env (fn :: rest) s
        = convertLoop intSize env rest (convertStep intSize env s fn) := rfl
    rw [hstep]
    obtain ⟨new, h1, h2, h3, h4, h5, h6⟩ := ih (convertStep intSize env s fn)
    cases hp : parseName intSize fn with
    | error msg =>
      have hw := parseName_error_not_wellFormed intSize fn msg hp
      have hs : convertStep intSize env s fn = { s with out := s.out ++ [msg] } := by
        simp [convertStep, hp]
      rw [hs] at h1 h3 h4 h5 h6
      rw [hs]
      exact ⟨new, h1, by simp [hw, h2], h3, h4, h5, h6⟩
    | ok c =>
      have hw := parseName_ok_wellFormed intSize fn c hp
      by_cases hm : isModified env (env.dBFindChunkFromFS s.fs c) = true
      · have hs : convertStep intSize env s fn
            = { s with mod := s.mod + 1,
                       loads := s.loads ++ [⟨fn, c, env.dBFindChunkFromFS s.fs c⟩] } := by
          simp [convertStep, hp, hm]
        rw [hs] at h1 h3 h4 h5 h6
        rw [hs]
        refine ⟨⟨fn, c, env.dBFindChunkFromFS s.fs c⟩ :: new, by simp [h1], by simp [hw, h2],
          ?_, ?_, ?_, h6⟩
        · intro l hl
          rcases List.mem_cons.1 hl with rfl | hl
          · exact ⟨hp, s.fs, List.Sublist.refl _, rfl⟩
          · exact h3 l hl
        · simp only [] at h4
          rw [h4, List.countP_cons_of_pos _ _ (by simpa using hm)]
          omega
        · simp only [] at h5
          rw [h5, List.countP_cons_of_neg _ _ (by simp [hm])]
      · have hs : convertStep intSize env s fn
            = { fs := (osRemove (env.removeRefused s.fs (env.DBChunkFileName c)) s.fs (env.DBChunkFileName c)).1
                mod := s.mod
                unmod := s.unmod + 1
                out := if (osRemove (env.removeRefused s.fs (env.DBChunkFileName c)) s.fs (env.DBChunkFileName c)).2 then s.out
                  else s.out ++ [ConvMsg.failedToRemove fn]
                loads := s.loads ++ [⟨fn, c, env.dBFindChunkFromFS s.fs c⟩]
                removals := s.removals
                  ++ [⟨fn, env.DBChunkFileName c, (osRemove (env.removeRefused s.fs (env.DBChunkFileName c)) s.fs (env.DBChunkFileName c)).2⟩] } := by
          simp [convertStep, hp, hm]
        rw [hs] at h1 h3 h4 h5 h6
        rw [hs]
        refine ⟨⟨fn, c, env.dBFindChunkFromFS s.fs c⟩ :: new, by simp [h1], by simp [hw, h2],
          ?_, ?_, ?_, h6.trans (osRemove_sublist _ _ _)⟩
        · intro l hl
          rcases List.mem_cons.1 hl with rfl | hl
          · exact ⟨hp, s.fs, List.Sublist.refl _, rfl⟩
          · obtain ⟨q1, fs1, q2, q3⟩ := h3 l hl
            exact ⟨q1, fs1, q2.trans (osRemove_sublist _ _ _), q3⟩
        · simp only [] at h4
          rw [h4, List.countP_cons_of_neg _ _ (by simpa using hm)]
        · simp only [] at h5
          rw [h5, List.countP_cons_of_pos _ _ (by simpa using hm)]
          omega

/-- C3: for every listing given to `ConvertFiles`, a chunk is loaded for each well-formed
entry (a name that splits on commas into three parts that each parse as an integer), in
the order of the listing, and for no other entry; `mod` is the number of loaded chunks
with the bit `CHF_MODIFIED` set and `unmod` the number of those with the bit clear, so
that `mod + unmod` is the number of well-formed entries: a malformed entry is not
counted and does not stop the entries after it. The two counts are what is reported. -/
theorem ConvertFiles_counts (intSize : Nat) (env : Env) (dir : List FileName) (fs : Dir) :
    (ConvertFiles intSize env (some dir) fs).loads.map Load.fn
      = dir.filter (wellFormed intSize) ∧
    (∀ l ∈ (ConvertFiles intSize env (some dir) fs).loads,
      parseName intSize l.fn = Except.ok l.c ∧
      ∃ fs1 : Dir, fs1.Sublist fs ∧ l.ch = env.dBFindChunkFromFS fs1 l.c) ∧
    (ConvertFiles intSize env (some dir) fs).mod
      = (ConvertFiles intSize env (some dir) fs).loads.countP
          (fun l => decide (l.ch.flag &&& env.CHF_MODIFIED ≠ 0)) ∧
    (ConvertFiles intSize env (some dir) fs).unmod
      = (ConvertFiles intSize env (some dir) fs).loads.countP
          (fun l => decide (l.ch.flag &&& env.CHF_MODIFIED = 0)) ∧
    (ConvertFiles intSize env (some dir) fs).mod + (ConvertFiles intSize env (some dir) fs).unmod
      = dir.countP (wellFormed intSize) ∧
    (∃ pre, (ConvertFiles intSize env (some dir) fs).out
      = pre ++ [ConvMsg.summary (ConvertFiles intSize env (some dir) fs).mod
          (ConvertFiles intSize env (some dir) fs).unmod]) := by
  obtain ⟨new, h1, h2, h3, h4, h5, _⟩ := convertLoop_loads intSize env dir
    { fs := fs, mod := 0, unmod := 0, out := [], loads := [], removals := [] }
  simp only [List.nil_append, Nat.zero_add] at h1 h4 h5
  have hl : (ConvertFiles intSize env (some dir) fs).loads = new := h1
  have hm : (ConvertFiles intSize env (some dir) fs).mod
      = new.countP (fun l => isModified env l.ch) := h4
  have hu : (ConvertFiles intSize env (some dir) fs).unmod
      = new.countP (fun l => !isModified env l.ch) := h5
  have e1 : (fun l : Load => decide (l.ch.flag &&& env.CHF_MODIFIED ≠ 0))
      = (fun l => isModified env l.ch) := rfl
  have e2 : (fun l : Load => decide (l.ch.flag &&& env.CHF_MODIFIED = 0))
      = (fun l => !isModified env l.ch) := by
    funext l
    simp [isModified]
  have ho : ∃ pre, (ConvertFiles intSize env (some dir) fs).out
      = pre ++ [ConvMsg.summary (ConvertFiles intSize env (some dir) fs).mod
          (ConvertFiles intSize env (some dir) fs).unmod] := ⟨_, rfl⟩
  have hlen : new.length = dir.countP (wellFormed intSize) := by
    rw [List.countP_eq_length_filter, ← h2, List.length_map]
  refine ⟨?_, ?_, ?_, ?_, ?_, ho⟩
  · rw [hl]
    exact h2
  · rw [hl]
    exact h3
  · rw [hl, hm, e1]
  · rw [hl, hu, e2]
  · rw [hm, hu, ← hlen, List.length_eq_countP_add_countP (fun l => isModified env l.ch) new]
    congr 1
    apply List.countP_congr
    intro l _
    simp

/-- C6, the code at the failing input: with a 64-bit `int`, `Atoi` accepts the part
`4294967297` of the name `4294967297,0,0`, the conversion `int32` keeps its low 32 bits,
and `ConvertFiles` loads the chunk of coordinate (1,0,0) for that entry instead of
skipping it. -/
theorem ConvertFiles_wraps_wide_coordinate (env : Env) (fs : Dir) :
    Atoi 64 "4294967297".toList = some 4294967297 ∧
    parseName 64 "4294967297,0,0".toList = Except.ok ⟨1, 0, 0⟩ ∧
    (ConvertFiles 64 env (some ["4294967297,0,0".toList]) fs).loads
      = [⟨"4294967297,0,0".toList, ⟨1, 0, 0⟩, env.dBFindChunkFromFS fs ⟨1, 0, 0⟩⟩] := by
  have hp : parseName 64 "4294967297,0,0".toList = Except.ok ⟨1, 0, 0⟩ := by rfl
  refine ⟨by decide, hp, ?_⟩
  simp only [ConvertFiles, convertLoop, List.foldl, convertStep, hp]
  split <;> simp

theorem osRemove_eq (refused : Bool) (fs : Dir) (name : FileName) :
    osRemove refused fs name
      = (if (fs.any (fun f => decide (f.name = name)) && !refused) = true then
          fs.filter (fun f => !decide (f.name = name)) else fs,
        fs.any (fun f => decide (f.name = name)) && !refused) := by
  unfold osRemove
  split
  · rename_i h
    simp [h]
  · rename_i h
    simp only [Bool.not_eq_true] at h
    simp [h]

/-- The three ways in which the body of the loop treats an entry. -/
theorem convertStep_cases (intSize : Nat) (env : Env) (s : ConvState) (fn : FileName) :
    (∃ msg, parseName intSize fn = Except.error msg ∧
      convertStep intSize env s fn = { s with out := s.out ++ [msg] }) ∨
    (∃ c, parseName intSize fn = Except.ok c ∧
      isModified env (env.dBFindChunkFromFS s.fs c) = true ∧
      convertStep intSize env s fn
        = { s with mod := s.mod + 1,
                   loads := s.loads ++ [⟨fn, c, env.dBFindChunkFromFS s.fs c⟩] }) ∨
    (∃ c ok, parseName intSize fn = Except.ok c ∧
      isModified env (env.dBFindChunkFromFS s.fs c) = false ∧
      ok = (s.fs.any (fun f => decide (f.name = env.DBChunkFileName c))
        && !env.removeRefused s.fs (env.DBChunkFileName c)) ∧
      convertStep intSize env s fn
        = { fs := if ok = true then
              s.fs.filter (fun f => !decide (f.name = env.DBChunkFileName c)) else s.fs
            mod := s.mod
            unmod := s.unmod + 1
            out := if ok = true then s.out else s.out ++ [ConvMsg.failedToRemove fn]
            loads := s.loads ++ [⟨fn, c, env.dBFindChunkFromFS s.fs c⟩]
            removals := s.removals ++ [⟨fn, env.DBChunkFileName c, ok⟩] }) := by
  cases hp : parseName intSize fn with
  | error msg =>
    left
    exact ⟨msg, rfl, by simp [convertStep, hp]⟩
  | ok c =>
    right
    cases hm : isModified env (env.dBFindChunkFromFS s.fs c) with
    | true =>
      left
      exact ⟨c, rfl, hm, by simp [convertStep, hp, hm]⟩
    | false =>
      right
      refine ⟨c, _, rfl, hm, rfl, ?_⟩
      simp only [convertStep, hp, hm, osRemove_eq]
      simp

/-- A property of the state that the body of the loop preserves holds after the loop. -/
theorem convertLoop_invariant (intSize : Nat) (env : Env) (P : ConvState → Prop)
    (hstep : ∀ s fn, P s → P (convertStep intSize env s fn)) (dir : List FileName)
    (s : ConvState) (h : P s) : P (convertLoop intSize env dir s) := by
  induction dir generalizing s with
  | nil => exact h
  | cons fn rest ih => exact ih _ (hstep s fn h)

/-- The coordinate decoded from a name has `int32` components. -/
theorem parseName_range (intSize : Nat) (fn : FileName) (c : CC)
    (h : parseName intSize fn = Except.ok c) :
    (-(2 ^ 31 : Int) ≤ c.X ∧ c.X < (2 ^ 31 : Int)) ∧
    (-(2 ^ 31 : Int) ≤ c.Y ∧ c.Y < (2 ^ 31 : Int)) ∧
    (-(2 ^ 31 : Int) ≤ c.Z ∧ c.Z < (2 ^ 31 : Int)) := by
  unfold parseName at h
  split at h
  · rename_i a b d _
    cases ha : Atoi intSize a with
    | none => simp [ha] at h
    | some x =>
      cases hb : Atoi intSize b with
      | none => simp [ha, hb] at h
      | some y =>
        cases hd : Atoi intSize d with
        | none => simp [ha, hb, hd] at h
        | some z =>
          simp only [ha, hb, hd] at h
          cases h
          exact ⟨int32_range x, int32_range y, int32_range z⟩
  · cases h

theorem find_by_name (fs : Dir) (f : File) (hnd : (fs.map File.name).Nodup) (hf : f ∈ fs) :
    fs.find? (fun g => decide (g.name = f.name)) = some f := by
  induction fs with
  | nil => cases hf
  | cons g rest ih =>
    rw [List.map_cons, List.nodup_cons] at hnd
    rcases List.mem_cons.1 hf with rfl | h
    · simp
    · have hne : g.name ≠ f.name := by
        intro e
        exact hnd.1 (e ▸ List.mem_map_of_mem File.name h)
      rw [List.find?_cons_of_neg _ (by simpa using hne)]
      exact ih hnd.2 h

theorem RemovalInv_step (intSize : Nat) (env : Env) (fs0 : Dir) (s : ConvState)
    (fn : FileName) (h : RemovalInv intSize env fs0 s) :
    RemovalInv intSize env fs0 (convertStep intSize env s fn) := by
  obtain ⟨ha, hb, hd, he⟩ := h
  rcases convertStep_cases intSize env s fn with
    ⟨msg, _, hs⟩ | ⟨c, hp, hm, hs⟩ | ⟨c, ok, hp, hm, _, hs⟩
  · rw [hs]
    refine ⟨ha, hb, hd, ?_⟩
    intro x hx hok
    exact List.mem_append_left _ (he x hx hok)
  · rw [hs]
    refine ⟨?_, hb, hd, he⟩
    simp only [List.filter_append, List.map_append]
    rw [ha]
    simp [hm]
  · rw [hs]
    refine ⟨?_, ?_, ?_, ?_⟩
    · simp only [List.filter_append, List.map_append]
      rw [ha]
      simp [hm]
    · cases ok with
      | true =>
        simp only [if_true, List.filter_append, List.map_append, List.filter_cons_of_pos,
          List.filter_nil, List.map_cons, List.map_nil]
        rw [hb, List.filter_filter]
        apply List.filter_congr
        intro f _
        by_cases e : f.name = env.DBChunkFileName c <;> simp [e]
      | false =>
        simp only [List.filter_append, List.map_append]
        rw [hb]
        simp
    · intro x hx
      rcases List.mem_append.1 hx with h1 | h1
      · exact hd x h1
      · simp only [List.mem_singleton] at h1
        subst h1
        exact ⟨c, hp, rfl⟩
    · intro x hx hok
      rcases List.mem_append.1 hx with h1 | h1
      · have := he x h1 hok
        split
        · exact this
        · exact List.mem_append_left _ this
      · simp only [List.mem_singleton] at h1
        subst h1
        simp only [] at hok
        simp [hok]

/-- The removals of a whole pass, in every environment. -/
theorem ConvertFiles_removals (intSize : Nat) (env : Env) (dir : List FileName) (fs : Dir) :
    (ConvertFiles intSize env (some dir) fs).removals.map (fun x => (x.fn, x.name))
      = ((ConvertFiles intSize env (some dir) fs).loads.filter
          (fun l => !isModified env l.ch)).map (fun l => (l.fn, env.DBChunkFileName l.c)) ∧
    (ConvertFiles intSize env (some dir) fs).fs
      = fs.filter (fun f => decide (f.name ∉
          ((ConvertFiles intSize env (some dir) fs).removals.filter
            (fun x => x.ok)).map Removal.name)) ∧
    (∀ x ∈ (ConvertFiles intSize env (some dir) fs).removals,
      ∃ c, parseName intSize x.fn = Except.ok c ∧ x.name = env.DBChunkFileName c) ∧
    (∀ x ∈ (ConvertFiles intSize env (some dir) fs).removals,
      x.ok = false → ConvMsg.failedToRemove x.fn
        ∈ (ConvertFiles intSize env (some dir) fs).out) := by
  obtain ⟨ha, hb, hd, he⟩ := convertLoop_invariant intSize env (RemovalInv intSize env fs)
    (fun s fn h => RemovalInv_step intSize env fs s fn h) dir
    { fs := fs, mod := 0, unmod := 0, out := [], loads := [], removals := [] }
    (by simp [RemovalInv])
  refine ⟨ha, hb, hd, ?_⟩
  intro x hx hok
  exact List.mem_append_left _ (he x hx hok)

/-- C4, the code at the failing input: the folder holds the files `+1,2,3` and `1,2,3`,
and both names decode to the coordinate (1,2,3). In every environment `ConvertFiles`
loads the chunk (1,2,3) for both entries, every call of `os.Remove` names the one file
of that coordinate, not the entry, and the own file of one of the two entries is still
there afterwards. When chunks are loaded from their files, the chunk is unmodified and
no removal is refused: the entry `+1,2,3` removes the file `1,2,3`, the file `+1,2,3`
stays, and the failure reported for the entry `1,2,3` is that of removing a file that
the pass has removed itself. -/
theorem ConvertFiles_keeps_alias_file (env : Env) :
    ((ConvertFiles 64 env (some (ReadDir aliasDir)) aliasDir).loads.map
        (fun l => (l.fn, l.c))
      = [("+1,2,3".toList, ⟨1, 2, 3⟩), ("1,2,3".toList, ⟨1, 2, 3⟩)] ∧
    (∀ x ∈ (ConvertFiles 64 env (some (ReadDir aliasDir)) aliasDir).removals,
      x.name = env.DBChunkFileName ⟨1, 2, 3⟩) ∧
    ("+1,2,3".toList ∈ ReadDir (ConvertFiles 64 env (some (ReadDir aliasDir)) aliasDir).fs ∨
      "1,2,3".toList ∈ ReadDir (ConvertFiles 64 env (some (ReadDir aliasDir)) aliasDir).fs)) ∧
    ((ConvertFiles 64 (fsEnv 1 ⟨0⟩ (fun _ => false)) (some (ReadDir aliasDir)) aliasDir).removals
      = [⟨"+1,2,3".toList, "1,2,3".toList, true⟩, ⟨"1,2,3".toList, "1,2,3".toList, false⟩] ∧
    (ConvertFiles 64 (fsEnv 1 ⟨0⟩ (fun _ => false)) (some (ReadDir aliasDir)) aliasDir).fs
      = [⟨"+1,2,3".toList, 0⟩] ∧
    (ConvertFiles 64 (fsEnv 1 ⟨0⟩ (fun _ => false)) (some (ReadDir aliasDir)) aliasDir).out
      = [ConvMsg.failedToRemove "1,2,3".toList, ConvMsg.summary 0 2]) := by
  refine ⟨?_, by decide, by decide, by decide⟩
  obtain ⟨new, h1, h2, h3, _⟩ := convertLoop_loads 64 env (ReadDir aliasDir)
    { fs := aliasDir, mod := 0, unmod := 0, out := [], loads := [], removals := [] }
  obtain ⟨ha, hb, hd, _⟩ := ConvertFiles_removals 64 env (ReadDir aliasDir) aliasDir
  have hloads : (ConvertFiles 64 env (some (ReadDir aliasDir)) aliasDir).loads = new := by
    show (convertLoop 64 env (ReadDir aliasDir) _).loads = new
    rw [h1]
    rfl
  rw [hloads] at ha
  rw [hloads]
  have hwf : (ReadDir aliasDir).filter (wellFormed 64) = ["+1,2,3".toList, "1,2,3".toList] := by
    decide
  rw [hwf] at h2
  have hc : ∀ l ∈ new, l.c = ⟨1, 2, 3⟩ := by
    intro l hl
    have hfn : l.fn ∈ new.map Load.fn := List.mem_map_of_mem Load.fn hl
    rw [h2] at hfn
    have hp := (h3 l hl).1
    simp only [List.mem_cons, List.mem_singleton, List.not_mem_nil, or_false] at hfn
    rcases hfn with e | e
    · rw [e] at hp
      have hq : parseName 64 "+1,2,3".toList = Except.ok ⟨1, 2, 3⟩ := by rfl
      rw [hq] at hp
      exact (Except.ok.inj hp).symm
    · rw [e] at hp
      have hq : parseName 64 "1,2,3".toList = Except.ok ⟨1, 2, 3⟩ := by rfl
      rw [hq] at hp
      exact (Except.ok.inj hp).symm
  have hnames : ∀ x ∈ (ConvertFiles 64 env (some (ReadDir aliasDir)) aliasDir).removals,
      x.name = env.DBChunkFileName ⟨1, 2, 3⟩ := by
    intro x hx
    have hmem : (x.fn, x.name) ∈ (ConvertFiles 64 env (some (ReadDir aliasDir))
        aliasDir).removals.map (fun x => (x.fn, x.name)) :=
      List.mem_map_of_mem (fun x => (x.fn, x.name)) hx
    rw [ha] at hmem
    obtain ⟨l, hl, hle⟩ := List.mem_map.1 hmem
    have hl2 := (List.mem_filter.1 hl).1
    have := congrArg Prod.snd hle
    simp only [] at this
    rw [← this, hc l hl2]
  refine ⟨?_, hnames, ?_⟩
  · rcases hn : new with _ | ⟨l1, _ | ⟨l2, _ | ⟨l3, t⟩⟩⟩
    · rw [hn] at h2
      simp at h2
    · rw [hn] at h2
      simp at h2
    · rw [hn] at h2 hc
      simp only [List.map_cons, List.map_nil, List.cons.injEq, and_true] at h2
      have c1 := hc l1 (List.mem_cons_self _ _)
      have c2 := hc l2 (List.mem_cons_of_mem _ (List.mem_cons_self _ _))
      simp only [List.map_cons, List.map_nil, h2.1, h2.2, c1, c2]
    · rw [hn] at h2
      simp at h2
  · have hin : ∀ f ∈ aliasDir, f.name ≠ env.DBChunkFileName ⟨1, 2, 3⟩ →
        f.name ∈ ReadDir (ConvertFiles 64 env (some (ReadDir aliasDir)) aliasDir).fs := by
      intro f hf hne
      apply List.mem_map_of_mem File.name
      rw [hb]
      refine List.mem_filter.2 ⟨hf, ?_⟩
      simp only [decide_eq_true_eq]
      intro hmem
      obtain ⟨x, hx, hxn⟩ := List.mem_map.1 hmem
      exact hne (hxn ▸ hnames x (List.mem_filter.1 hx).1)
    by_cases e : env.DBChunkFileName ⟨1, 2, 3⟩ = "+1,2,3".toList
    · right
      exact hin ⟨"1,2,3".toList, 0⟩ (by decide) (by rw [e]; decide)
    · left
      exact hin ⟨"+1,2,3".toList, 0⟩ (by decide) (fun h => e h.symm)

theorem isChunkFileName_parse (intSize : Nat) (fn : FileName)
    (h : isChunkFileName intSize fn = true) :
    ∃ c, parseName intSize fn = Except.ok c ∧ DBChunkFileName c = fn := by
  unfold isChunkFileName at h
  split at h
  · rename_i c hp
    exact ⟨c, hp, by simpa using h⟩
  · cases h

theorem isChunkFileName_target (intSize : Nat) (hs : 32 ≤ intSize) (fn : FileName) (c : CC)
    (hp : parseName intSize fn = Except.ok c) :
    isChunkFileName intSize (DBChunkFileName c) = true := by
  obtain ⟨rX, rY, rZ⟩ := parseName_range intSize fn c hp
  have := parseName_DBChunkFileName intSize hs c rX rY rZ
  unfold isChunkFileName
  rw [this]
  simp

theorem isRemovable_parts (intSize CHF : Nat) (refused : FileName → Bool) (f : File) :
    isRemovable intSize CHF refused f = true ↔
      isChunkFileName intSize f.name = true ∧ f.flag &&& CHF = 0 ∧ refused f.name = false := by
  simp [isRemovable, and_assoc]

theorem namesRemovable_iff (intSize CHF : Nat) (refused : FileName → Bool) (fs0 : Dir)
    (fn : FileName) :
    namesRemovable intSize CHF refused fs0 fn = true ↔
      ∃ f ∈ fs0, f.name = fn ∧ isRemovable intSize CHF refused f = true := by
  simp [namesRemovable, List.any_eq_true]

theorem load_some (absent : chunk) (fs : Dir) (c : CC) (f : File)
    (h : fs.find? (fun g => decide (g.name = DBChunkFileName c)) = some f) :
    dBFindChunkFromFS absent fs c = ⟨f.flag⟩ := by
  unfold dBFindChunkFromFS
  rw [h]

theorem load_none (absent : chunk) (fs : Dir) (c : CC)
    (h : fs.find? (fun g => decide (g.name = DBChunkFileName c)) = none) :
    dBFindChunkFromFS absent fs c = absent := by
  unfold dBFindChunkFromFS
  rw [h]

theorem survivors_nodup (intSize CHF : Nat) (refused : FileName → Bool) (fs0 : Dir)
    (hnd0 : (fs0.map File.name).Nodup) :
    ((survivors intSize CHF refused fs0).map File.name).Nodup :=
  ((List.filter_sublist _).map File.name).nodup hnd0

theorem find_survivors_some (intSize CHF : Nat) (refused : FileName → Bool) (fs0 : Dir)
    (hnd0 : (fs0.map File.name).Nodup) (f : File) (hf : f ∈ fs0)
    (hrem : isRemovable intSize CHF refused f = false) :
    (survivors intSize CHF refused fs0).find? (fun g => decide (g.name = f.name)) = some f :=
  find_by_name _ f (survivors_nodup intSize CHF refused fs0 hnd0)
    (List.mem_filter.2 ⟨hf, by simp [hrem]⟩)

theorem find_survivors_none (intSize CHF : Nat) (refused : FileName → Bool) (fs0 : Dir)
    (t : FileName)
    (h : ∀ g ∈ fs0, g.name = t → isRemovable intSize CHF refused g = true) :
    (survivors intSize CHF refused fs0).find? (fun g => decide (g.name = t)) = none := by
  rw [List.find?_eq_none]
  intro g hg hname
  obtain ⟨hg0, hnr⟩ := List.mem_filter.1 hg
  have := h g hg0 (by simpa using hname)
  rw [this] at hnr
  cases hnr

theorem countP_flip_one (l : List FileName) (hnd : l.Nodup) (t : FileName) (ht : t ∈ l)
    (p q : FileName → Bool) (hp : p t = false) (hq : q t = true)
    (hother : ∀ e ∈ l, e ≠ t → q e = p e) : l.countP q = l.countP p + 1 := by
  induction l with
  | nil => cases ht
  | cons a rest ih =>
    rw [List.nodup_cons] at hnd
    by_cases hat : a = t
    · subst hat
      have hrest : rest.countP q = rest.countP p := by
        apply List.countP_congr
        intro e he
        have hne : e ≠ a := fun h => hnd.1 (h ▸ he)
        rw [hother e (List.mem_cons_of_mem _ he) hne]
      rw [List.countP_cons_of_pos _ _ hq, List.countP_cons_of_neg _ _ (by simp [hp]), hrest]
    · have htr : t ∈ rest := by
        rcases List.mem_cons.1 ht with h | h
        · exact absurd h.symm hat
        · exact h
      have ih2 := ih hnd.2 htr (fun e he hne => hother e (List.mem_cons_of_mem _ he) hne)
      have ha := hother a (List.mem_cons_self _ _) hat
      simp only [List.countP_cons, ha, ih2]
      omega

theorem any_filter_ne (fs : Dir) (t e : FileName) (h : e ≠ t) :
    (fs.filter (fun f => !decide (f.name = t))).any (fun f => decide (f.name = e))
      = fs.any (fun f => decide (f.name = e)) := by
  induction fs with
  | nil => rfl
  | cons g rest ih =>
    by_cases hg : g.name = t
    · have hge : g.name ≠ e := fun h2 => h (h2 ▸ hg)
      rw [List.filter_cons_of_neg (by simp [hg]), ih, List.any_cons]
      simp [hge]
    · rw [List.filter_cons_of_pos (by simp [hg]), List.any_cons, List.any_cons, ih]

theorem any_filter_self (fs : Dir) (t : FileName) :
    (fs.filter (fun f => !decide (f.name = t))).any (fun f => decide (f.name = t)) = false := by
  rw [Bool.eq_false_iff]
  intro h
  obtain ⟨g, hg, hname⟩ := List.any_eq_true.1 h
  have := (List.mem_filter.1 hg).2
  simp at this hname
  exact this hname

/-- One step of a pass over a folder of distinct names, in the environment in which
chunks are loaded from their files: the invariant of the pass goes on, the files that
are not removable stay, and the entry adds to the modified count what it will add in
a later pass, up to the entries whose own file an earlier entry has removed. -/
theorem pass_step (intSize CHF : Nat) (absent : chunk) (refused : FileName → Bool)
    (hs : 32 ≤ intSize) (fs0 : Dir) (hnd0 : (fs0.map File.name).Nodup)
    (fn : FileName) (rest : List FileName) (s : ConvState)
    (hinv : PassInv intSize CHF refused fs0 (fn :: rest) s) :
    PassInv intSize CHF refused fs0 rest
      (convertStep intSize (fsEnv CHF absent refused) s fn) ∧
    (convertStep intSize (fsEnv CHF absent refused) s fn).fs.filter
        (fun f => !isRemovable intSize CHF refused f)
      = s.fs.filter (fun f => !isRemovable intSize CHF refused f) ∧
    (convertStep intSize (fsEnv CHF absent refused) s fn).mod
        + (if absent.flag &&& CHF ≠ 0 then
            rest.countP (removedEarly intSize CHF refused fs0
              (convertStep intSize (fsEnv CHF absent refused) s fn).fs) else 0)
      = s.mod + (if countedLater intSize CHF absent refused fs0 fn = true then 1 else 0)
        + (if absent.flag &&& CHF ≠ 0 then
            (if removedEarly intSize CHF refused fs0 s.fs fn = true then 1 else 0)
              + rest.countP (removedEarly intSize CHF refused fs0 s.fs) else 0) := by
  obtain ⟨hsub, hkeep, hpend, hndr⟩ := hinv
  rw [List.nodup_cons] at hndr
  have hmem0 : ∀ g ∈ s.fs, g ∈ fs0 := fun g hg => hsub.subset hg
  have huniq : ∀ f g, f ∈ fs0 → g ∈ fs0 → f.name = g.name → f = g :=
    fun f g hf hg h => List.inj_on_of_nodup_map hnd0 hf hg h
  -- a removable file of the folder that bears the name of the entry
  have hq : namesRemovable intSize CHF refused fs0 fn = true →
      ∃ c f, parseName intSize fn = Except.ok c ∧ DBChunkFileName c = fn ∧ f ∈ fs0 ∧
        f.name = fn ∧ isRemovable intSize CHF refused f = true := by
    intro h
    obtain ⟨f, hf, hfn, hr⟩ := (namesRemovable_iff intSize CHF refused fs0 fn).1 h
    obtain ⟨c, hp, hc⟩ := isChunkFileName_parse intSize f.name
      ((isRemovable_parts intSize CHF refused f).1 hr).1
    rw [hfn] at hp hc
    exact ⟨c, f, hp, hc, hf, hfn, hr⟩
  have hnr_of_q : namesRemovable intSize CHF refused fs0 fn = false →
      ∀ f ∈ s.fs, isRemovable intSize CHF refused f = true → f.name ≠ fn := by
    intro hqf f hf hr hfn
    have : namesRemovable intSize CHF refused fs0 fn = true :=
      (namesRemovable_iff intSize CHF refused fs0 fn).2 ⟨f, hmem0 f hf, hfn, hr⟩
    rw [hqf] at this
    cases this
  -- closing a case in which the folder does not change
  have close_same : ∀ k : Nat,
      (convertStep intSize (fsEnv CHF absent refused) s fn).fs = s.fs →
      (convertStep intSize (fsEnv CHF absent refused) s fn).mod = s.mod + k →
      (∀ f ∈ s.fs, isRemovable intSize CHF refused f = true → f.name ≠ fn) →
      k = (if countedLater intSize CHF absent refused fs0 fn = true then 1 else 0)
          + (if absent.flag &&& CHF ≠ 0 then
              (if removedEarly intSize CHF refused fs0 s.fs fn = true then 1 else 0) else 0) →
      PassInv intSize CHF refused fs0 rest
        (convertStep intSize (fsEnv CHF absent refused) s fn) ∧
      (convertStep intSize (fsEnv CHF absent refused) s fn).fs.filter
          (fun f => !isRemovable intSize CHF refused f)
        = s.fs.filter (fun f => !isRemovable intSize CHF refused f) ∧
      (convertStep intSize (fsEnv CHF absent refused) s fn).mod
          + (if absent.flag &&& CHF ≠ 0 then
              rest.countP (removedEarly intSize CHF refused fs0
                (convertStep intSize (fsEnv CHF absent refused) s fn).fs) else 0)
        = s.mod + (if countedLater intSize CHF absent refused fs0 fn = true then 1 else 0)
          + (if absent.flag &&& CHF ≠ 0 then
              (if removedEarly intSize CHF refused fs0 s.fs fn = true then 1 else 0)
                + rest.countP (removedEarly intSize CHF refused fs0 s.fs) else 0) := by
    intro k hfs1 hmod1 hnr hk
    refine ⟨?_, ?_, ?_⟩
    · unfold PassInv
      rw [hfs1]
      refine ⟨hsub, hkeep, ?_, hndr.2⟩
      intro f hf hr
      rcases List.mem_cons.1 (hpend f hf hr) with h | h
      · exact absurd h (hnr f hf hr)
      · exact h
    · rw [hfs1]
    · rw [hfs1, hmod1, hk]
      by_cases hA : absent.flag &&& CHF ≠ 0
      · simp only [if_pos hA]
        omega
      · simp only [if_neg hA]
        omega
  -- what a later pass loads for the coordinate of the entry
  have hlater_some : ∀ c f, f ∈ s.fs → f.name = DBChunkFileName c →
      isRemovable intSize CHF refused f = false →
      dBFindChunkFromFS absent (survivors intSize CHF refused fs0) c = ⟨f.flag⟩ := by
    intro c f hf hfn hr
    apply load_some
    rw [← hfn]
    exact find_survivors_some intSize CHF refused fs0 hnd0 f (hmem0 f hf) hr
  have hlater_gone : ∀ c f, f ∈ s.fs → f.name = DBChunkFileName c →
      isRemovable intSize CHF refused f = true →
      dBFindChunkFromFS absent (survivors intSize CHF refused fs0) c = absent := by
    intro c f hf hfn hr
    apply load_none
    apply find_survivors_none
    intro g hg hgn
    have : g = f := huniq g f hg (hmem0 f hf) (by rw [hgn, hfn])
    rw [this]
    exact hr
  have hlater_none : ∀ c, (∀ g ∈ s.fs, g.name ≠ DBChunkFileName c) →
      dBFindChunkFromFS absent (survivors intSize CHF refused fs0) c = absent := by
    intro c hno
    apply load_none
    apply find_survivors_none
    intro g hg hgn
    cases hr : isRemovable intSize CHF refused g with
    | true => rfl
    | false => exact absurd hgn (hno g (hkeep g hg hr))
  have hname : ∀ c, (fsEnv CHF absent refused).DBChunkFileName c = DBChunkFileName c :=
    fun _ => rfl
  have hloadenv : ∀ c, (fsEnv CHF absent refused).dBFindChunkFromFS s.fs c
      = dBFindChunkFromFS absent s.fs c := fun _ => rfl
  have hmodenv : ∀ ch : chunk, isModified (fsEnv CHF absent refused) ch
      = decide (ch.flag &&& CHF ≠ 0) := fun _ => rfl
  rcases convertStep_cases intSize (fsEnv CHF absent refused) s fn with
    ⟨msg, hp, hst⟩ | ⟨c, hp, hm, hst⟩ | ⟨c, ok, hp, hm, hok, hst⟩
  · -- a malformed name
    have hqf : namesRemovable intSize CHF refused fs0 fn = false := by
      cases h : namesRemovable intSize CHF refused fs0 fn with
      | false => rfl
      | true =>
        obtain ⟨c, _, hp2, _⟩ := hq h
        rw [hp] at hp2
        cases hp2
    have hcl : countedLater intSize CHF absent refused fs0 fn = false := by
      simp [countedLater, countsAs, hp]
    have hre : removedEarly intSize CHF refused fs0 s.fs fn = false := by
      simp [removedEarly, hqf]
    exact close_same 0 (by rw [hst]) (by simp [hst]) (hnr_of_q hqf) (by simp [hcl, hre])
  · -- a chunk that is loaded as modified
    rw [hloadenv, hmodenv] at hm
    have hcount : countsAs intSize CHF absent (survivors intSize CHF refused fs0) fn
        = some (decide ((dBFindChunkFromFS absent (survivors intSize CHF refused fs0) c).flag
            &&& CHF ≠ 0)) := by
      simp [countsAs, hp]
    cases hfind : s.fs.find? (fun g => decide (g.name = DBChunkFileName c)) with
    | some f =>
      have hfm : f ∈ s.fs := List.mem_of_find?_eq_some hfind
      have hfn : f.name = DBChunkFileName c := by simpa using List.find?_some hfind
      rw [load_some absent s.fs c f hfind] at hm
      have hbit : f.flag &&& CHF ≠ 0 := by simpa using hm
      have hremf : isRemovable intSize CHF refused f = false := by
        simp [isRemovable, hbit]
      have hqf : namesRemovable intSize CHF refused fs0 fn = false := by
        cases h : namesRemovable intSize CHF refused fs0 fn with
        | false => rfl
        | true =>
          obtain ⟨c2, g, hp2, hc2, hg, hgn, hgr⟩ := hq h
          rw [hp] at hp2
          have hcc : c = c2 := Except.ok.inj hp2
          subst hcc
          have : g = f := huniq g f hg (hmem0 f hfm) (by rw [hgn, hfn, hc2])
          rw [this, hremf] at hgr
          cases hgr
      have hcl : countedLater intSize CHF absent refused fs0 fn = true := by
        rw [hlater_some c f hfm hfn hremf] at hcount
        simp [countedLater, hqf, hcount, hbit]
      have hre : removedEarly intSize CHF refused fs0 s.fs fn = false := by
        simp [removedEarly, hqf]
      exact close_same 1 (by rw [hst]) (by simp [hst]) (hnr_of_q hqf) (by simp [hcl, hre])
    | none =>
      rw [load_none absent s.fs c hfind] at hm
      have hA : absent.flag &&& CHF ≠ 0 := by simpa using hm
      have hno : ∀ g ∈ s.fs, g.name ≠ DBChunkFileName c := by
        intro g hg hgn
        have := List.find?_eq_none.1 hfind g hg
        simp at this
        exact this hgn
      rw [hlater_none c hno] at hcount
      cases hqb : namesRemovable intSize CHF refused fs0 fn with
      | true =>
        obtain ⟨c2, g, hp2, hc2, _, _, _⟩ := hq hqb
        rw [hp] at hp2
        have hcc : c = c2 := Except.ok.inj hp2
        subst hcc
        have hcl : countedLater intSize CHF absent refused fs0 fn = false := by
          simp [countedLater, hqb]
        have hanyf : s.fs.any (fun f => decide (f.name = fn)) = false := by
          rw [Bool.eq_false_iff]
          intro h
          obtain ⟨g2, hg2, hg2n⟩ := List.any_eq_true.1 h
          exact hno g2 hg2 (by rw [hc2]; simpa using hg2n)
        have hre : removedEarly intSize CHF refused fs0 s.fs fn = true := by
          simp [removedEarly, hqb, hanyf]
        refine close_same 1 (by rw [hst]) (by simp [hst]) ?_ (by simp [hcl, hre, hA])
        intro f hf _ hfn
        exact hno f hf (by rw [hfn, hc2])
      | false =>
        have hcl : countedLater intSize CHF absent refused fs0 fn = true := by
          simp [countedLater, hqb, hcount, hA]
        have hre : removedEarly intSize CHF refused fs0 s.fs fn = false := by
          simp [removedEarly, hqb]
        exact close_same 1 (by rw [hst]) (by simp [hst]) (hnr_of_q hqb) (by simp [hcl, hre])
  · -- a chunk that is loaded as unmodified
    rw [hloadenv, hmodenv] at hm
    have hokv : ok = (s.fs.any (fun f => decide (f.name = DBChunkFileName c))
        && !refused (DBChunkFileName c)) := hok
    have hfs1 : (convertStep intSize (fsEnv CHF absent refused) s fn).fs
        = if ok = true then s.fs.filter (fun f => !decide (f.name = DBChunkFileName c))
          else s.fs := by rw [hst]; rfl
    have hmod1 : (convertStep intSize (fsEnv CHF absent refused) s fn).mod = s.mod + 0 := by
      simp [hst]
    have hcount : countsAs intSize CHF absent (survivors intSize CHF refused fs0) fn
        = some (decide ((dBFindChunkFromFS absent (survivors intSize CHF refused fs0) c).flag
            &&& CHF ≠ 0)) := by
      simp [countsAs, hp]
    cases hfind : s.fs.find? (fun g => decide (g.name = DBChunkFileName c)) with
    | none =>
      rw [load_none absent s.fs c hfind] at hm
      have hA : absent.flag &&& CHF = 0 := by simpa using hm
      have hno : ∀ g ∈ s.fs, g.name ≠ DBChunkFileName c := by
        intro g hg hgn
        have := List.find?_eq_none.1 hfind g hg
        simp at this
        exact this hgn
      have hany : s.fs.any (fun f => decide (f.name = DBChunkFileName c)) = false := by
        rw [Bool.eq_false_iff]
        intro h
        obtain ⟨g2, hg2, hg2n⟩ := List.any_eq_true.1 h
        exact hno g2 hg2 (by simpa using hg2n)
      rw [hany] at hokv
      simp only [Bool.false_and] at hokv
      rw [hokv] at hfs1
      rw [hlater_none c hno] at hcount
      have hcl : countedLater intSize CHF absent refused fs0 fn = false := by
        simp [countedLater, hcount, hA]
      refine close_same 0 (by simpa using hfs1) hmod1 ?_ (by simp [hcl, hA])
      intro f hf hr hfn
      have hqt : namesRemovable intSize CHF refused fs0 fn = true :=
        (namesRemovable_iff intSize CHF refused fs0 fn).2 ⟨f, hmem0 f hf, hfn, hr⟩
      obtain ⟨c2, _, hp2, hc2, _, _, _⟩ := hq hqt
      rw [hp] at hp2
      have hcc : c = c2 := Except.ok.inj hp2
      subst hcc
      exact hno f hf (by rw [hfn, hc2])
    | some f =>
      have hfm : f ∈ s.fs := List.mem_of_find?_eq_some hfind
      have hfn : f.name = DBChunkFileName c := by simpa using List.find?_some hfind
      rw [load_some absent s.fs c f hfind] at hm
      have hbit : f.flag &&& CHF = 0 := by simpa using hm
      have hany : s.fs.any (fun g => decide (g.name = DBChunkFileName c)) = true :=
        List.any_eq_true.2 ⟨f, hfm, by simpa using hfn⟩
      have hchunk : isChunkFileName intSize f.name = true := by
        rw [hfn]
        exact isChunkFileName_target intSize hs fn c hp
      have hq_t : namesRemovable intSize CHF refused fs0 fn = true →
          fn = DBChunkFileName c := by
        intro h
        obtain ⟨c2, _, hp2, hc2, _, _, _⟩ := hq h
        rw [hp] at hp2
        have hcc : c = c2 := Except.ok.inj hp2
        subst hcc
        exact hc2.symm
      cases hr : refused (DBChunkFileName c) with
      | true =>
        rw [hany, hr] at hokv
        simp only [Bool.not_true, Bool.and_false] at hokv
        rw [hokv] at hfs1
        have hremf : isRemovable intSize CHF refused f = false := by
          simp [isRemovable, hfn, hr]
        have hqf : namesRemovable intSize CHF refused fs0 fn = false := by
          cases h : namesRemovable intSize CHF refused fs0 fn with
          | false => rfl
          | true =>
            obtain ⟨c2, g, hp2, hc2, hg, hgn, hgr⟩ := hq h
            have hfnc := hq_t h
            have : g = f := huniq g f hg (hmem0 f hfm) (by rw [hgn, hfn, ← hfnc])
            rw [this, hremf] at hgr
            cases hgr
        rw [hlater_some c f hfm hfn hremf] at hcount
        have hcl : countedLater intSize CHF absent refused fs0 fn = false := by
          simp [countedLater, hcount, hbit]
        have hre : removedEarly intSize CHF refused fs0 s.fs fn = false := by
          simp [removedEarly, hqf]
        exact close_same 0 (by simpa using hfs1) hmod1 (hnr_of_q hqf) (by simp [hcl, hre])
      | false =>
        rw [hany, hr] at hokv
        simp only [Bool.not_false, Bool.and_true] at hokv
        rw [hokv] at hfs1
        simp only [if_true] at hfs1
        have hremf : isRemovable intSize CHF refused f = true := by
          rw [isRemovable_parts]
          exact ⟨hchunk, hbit, by rw [hfn]; exact hr⟩
        have hsame : ∀ g ∈ s.fs, g.name = DBChunkFileName c → g = f :=
          fun g hg hgn => huniq g f (hmem0 g hg) (hmem0 f hfm) (by rw [hgn, hfn])
        have hqt : namesRemovable intSize CHF refused fs0 (DBChunkFileName c) = true :=
          (namesRemovable_iff intSize CHF refused fs0 _).2 ⟨f, hmem0 f hfm, hfn, hremf⟩
        rw [hlater_gone c f hfm hfn hremf] at hcount
        refine ⟨?_, ?_, ?_⟩
        · unfold PassInv
          rw [hfs1]
          refine ⟨(List.filter_sublist _).trans hsub, ?_, ?_, hndr.2⟩
          · intro g hg hgr
            refine List.mem_filter.2 ⟨hkeep g hg hgr, ?_⟩
            have hne : g.name ≠ DBChunkFileName c := by
              intro hgn
              have : g = f := huniq g f hg (hmem0 f hfm) (by rw [hgn, hfn])
              rw [this, hremf] at hgr
              cases hgr
            simpa using hne
          · intro g hg hgr
            obtain ⟨hg1, hg2⟩ := List.mem_filter.1 hg
            have hne : g.name ≠ DBChunkFileName c := by simpa using hg2
            rcases List.mem_cons.1 (hpend g hg1 hgr) with h | h
            · exfalso
              have hqfn : namesRemovable intSize CHF refused fs0 fn = true :=
                (namesRemovable_iff intSize CHF refused fs0 fn).2 ⟨g, hmem0 g hg1, h, hgr⟩
              exact hne (by rw [h]; exact hq_t hqfn)
            · exact h
        · rw [hfs1, List.filter_filter]
          apply List.filter_congr
          intro g hg
          by_cases hgn : g.name = DBChunkFileName c
          · rw [hsame g hg hgn, hremf]
            simp
          · simp [hgn]
        · rw [hfs1, hmod1]
          by_cases hft : fn = DBChunkFileName c
          · have hqfn : namesRemovable intSize CHF refused fs0 fn = true := by
              rw [hft]
              exact hqt
            have hcl : countedLater intSize CHF absent refused fs0 fn = false := by
              simp [countedLater, hqfn]
            have hre : removedEarly intSize CHF refused fs0 s.fs fn = false := by
              have : s.fs.any (fun g => decide (g.name = fn)) = true := by
                rw [hft]
                exact hany
              simp [removedEarly, this]
            have hcnt : rest.countP (removedEarly intSize CHF refused fs0
                  (s.fs.filter (fun f => !decide (f.name = DBChunkFileName c))))
                = rest.countP (removedEarly intSize CHF refused fs0 s.fs) := by
              apply List.countP_congr
              intro e he
              have hne : e ≠ DBChunkFileName c := by
                intro h
                exact hndr.1 (by rw [hft, ← h]; exact he)
              simp only [removedEarly, any_filter_ne s.fs _ e hne]
            rw [hcnt, hcl, hre]
            simp
          · have hqf : namesRemovable intSize CHF refused fs0 fn = false := by
              cases h : namesRemovable intSize CHF refused fs0 fn with
              | false => rfl
              | true => exact absurd (hq_t h) hft
            have hre : removedEarly intSize CHF refused fs0 s.fs fn = false := by
              simp [removedEarly, hqf]
            by_cases hA : absent.flag &&& CHF ≠ 0
            · have hcl : countedLater intSize CHF absent refused fs0 fn = true := by
                simp [countedLater, hqf, hcount, hA]
              have htr : DBChunkFileName c ∈ rest := by
                rcases List.mem_cons.1 (hpend f hfm hremf) with h | h
                · exact absurd (by rw [← h, hfn]) hft
                · rw [← hfn]
                  exact h
              have hcnt := countP_flip_one rest hndr.2 (DBChunkFileName c) htr
                (removedEarly intSize CHF refused fs0 s.fs)
                (removedEarly intSize CHF refused fs0
                  (s.fs.filter (fun f => !decide (f.name = DBChunkFileName c))))
                (by simp [removedEarly, hany])
                (by simp [removedEarly, hqt, any_filter_self])
                (by
                  intro e _ hne
                  simp only [removedEarly, any_filter_ne s.fs _ e hne])
              rw [hcnt, hcl, hre]
              simp only [if_pos hA]
              simp
              omega
            · have hA0 : absent.flag &&& CHF = 0 := by simpa using hA
              have hcl : countedLater intSize CHF absent refused fs0 fn = false := by
                simp [countedLater, hcount, hA0]
              rw [hcl, hre]
              simp [hA]

/-- A pass over a folder of distinct names: the removable files go, and the modified
count is that of a later pass over what is left, up to the entries whose own file has
been removed before the pass came to them. -/
theorem pass_loop (intSize CHF : Nat) (absent : chunk) (refused : FileName → Bool)
    (hs : 32 ≤ intSize) (fs0 : Dir) (hnd0 : (fs0.map File.name).Nodup)
    (rest : List FileName) (s : ConvState)
    (hinv : PassInv intSize CHF refused fs0 rest s) :
    (convertLoop intSize (fsEnv CHF absent refused) rest s).fs
      = s.fs.filter (fun f => !isRemovable intSize CHF refused f) ∧
    (convertLoop intSize (fsEnv CHF absent refused) rest s).mod
      = s.mod + rest.countP (countedLater intSize CHF absent refused fs0)
        + (if absent.flag &&& CHF ≠ 0 then
            rest.countP (removedEarly intSize CHF refused fs0 s.fs) else 0) := by
  induction rest generalizing s with
  | nil =>
    obtain ⟨_, _, hpend, _⟩ := hinv
    refine ⟨?_, by simp [convertLoop]⟩
    show s.fs = _
    symm
    rw [List.filter_eq_self]
    intro f hf
    cases hr : isRemovable intSize CHF refused f with
    | false => rfl
    | true => exact absurd (hpend f hf hr) (List.not_mem_nil _)
  | cons fn rest ih =>
    obtain ⟨hinv1, hfil, hacc⟩ :=
      pass_step intSize CHF absent refused hs fs0 hnd0 fn rest s hinv
    obtain ⟨a, b⟩ := ih (convertStep intSize (fsEnv CHF absent refused) s fn) hinv1
    have hstep : convertLoop intSize (fsEnv CHF absent refused) (fn :: rest) s
        = convertLoop intSize (fsEnv CHF absent refused) rest
            (convertStep intSize (fsEnv CHF absent refused) s fn) := rfl
    rw [hstep]
    refine ⟨a.trans hfil, ?_⟩
    rw [b]
    simp only [List.countP_cons]
    by_cases hA : absent.flag &&& CHF ≠ 0
    · simp only [if_pos hA] at hacc ⊢
      omega
    · simp only [if_neg hA] at hacc ⊢
      omega

/-- A pass over a folder of distinct names that holds no removable file: the folder
stays as it is, every entry is counted by the chunk that is loaded for it, and every
call of `os.Remove` fails. -/
theorem settled_loop (intSize CHF : Nat) (absent : chunk) (refused : FileName → Bool)
    (hs : 32 ≤ intSize) (fs : Dir)
    (hnone : ∀ f ∈ fs, isRemovable intSize CHF refused f = false)
    (rest : List FileName) (s : ConvState) (hfs : s.fs = fs) :
    (convertLoop intSize (fsEnv CHF absent refused) rest s).fs = fs ∧
    (convertLoop intSize (fsEnv CHF absent refused) rest s).mod
      = s.mod + rest.countP (fun fn => countsAs intSize CHF absent fs fn == some true) ∧
    (convertLoop intSize (fsEnv CHF absent refused) rest s).unmod
      = s.unmod + rest.countP (fun fn => countsAs intSize CHF absent fs fn == some false) ∧
    (∀ x ∈ (convertLoop intSize (fsEnv CHF absent refused) rest s).removals,
      x ∈ s.removals ∨ x.ok = false) ∧
    (convertLoop intSize (fsEnv CHF absent refused) rest s).removals.length
      = s.removals.length
        + rest.countP (fun fn => countsAs intSize CHF absent fs fn == some false) := by
  induction rest generalizing s with
  | nil =>
    refine ⟨hfs, by simp [convertLoop], by simp [convertLoop], fun x hx => Or.inl hx,
      by simp [convertLoop]⟩
  | cons fn rest ih =>
    have hstep : convertLoop intSize (fsEnv CHF absent refused) (fn :: rest) s
        = convertLoop intSize (fsEnv CHF absent refused) rest
            (convertStep intSize (fsEnv CHF absent refused) s fn) := rfl
    rw [hstep]
    rcases convertStep_cases intSize (fsEnv CHF absent refused) s fn with
      ⟨msg, hp, hst⟩ | ⟨c, hp, hm, hst⟩ | ⟨c, ok, hp, hm, hok, hst⟩
    · have hc : countsAs intSize CHF absent fs fn = none := by simp [countsAs, hp]
      have e2 : (convertStep intSize (fsEnv CHF absent refused) s fn).mod = s.mod := by
        rw [hst]
      have e3 : (convertStep intSize (fsEnv CHF absent refused) s fn).unmod = s.unmod := by
        rw [hst]
      have e4 : (convertStep intSize (fsEnv CHF absent refused) s fn).removals
          = s.removals := by rw [hst]
      obtain ⟨i1, i2, i3, i4, i5⟩ := ih (convertStep intSize (fsEnv CHF absent refused) s fn)
        (by rw [hst]; exact hfs)
      rw [e2] at i2
      rw [e3] at i3
      rw [e4] at i4 i5
      refine ⟨i1, ?_, ?_, i4, ?_⟩
      · rw [i2, List.countP_cons_of_neg _ _ (by simp [hc])]
      · rw [i3, List.countP_cons_of_neg _ _ (by simp [hc])]
      · rw [i5, List.countP_cons_of_neg _ _ (by simp [hc])]
    · have hm2 : decide ((dBFindChunkFromFS absent fs c).flag &&& CHF ≠ 0) = true := by
        rw [← hfs]
        exact hm
      have hc : countsAs intSize CHF absent fs fn = some true := by
        simp only [countsAs, hp, hm2]
      have e2 : (convertStep intSize (fsEnv CHF absent refused) s fn).mod = s.mod + 1 := by
        rw [hst]
      have e3 : (convertStep intSize (fsEnv CHF absent refused) s fn).unmod = s.unmod := by
        rw [hst]
      have e4 : (convertStep intSize (fsEnv CHF absent refused) s fn).removals
          = s.removals := by rw [hst]
      obtain ⟨i1, i2, i3, i4, i5⟩ := ih (convertStep intSize (fsEnv CHF absent refused) s fn)
        (by rw [hst]; exact hfs)
      rw [e2] at i2
      rw [e3] at i3
      rw [e4] at i4 i5
      refine ⟨i1, ?_, ?_, i4, ?_⟩
      · rw [i2, List.countP_cons_of_pos _ _ (by simp [hc])]
        omega
      · rw [i3, List.countP_cons_of_neg _ _ (by simp [hc])]
      · rw [i5, List.countP_cons_of_neg _ _ (by simp [hc])]
    · have hm2 : decide ((dBFindChunkFromFS absent fs c).flag &&& CHF ≠ 0) = false := by
        rw [← hfs]
        exact hm
      have hc : countsAs intSize CHF absent fs fn = some false := by
        simp only [countsAs, hp, hm2]
      have hokf : ok = false := by
        have hokv : ok = (fs.any (fun f => decide (f.name = DBChunkFileName c))
            && !refused (DBChunkFileName c)) := by
          rw [← hfs]
          exact hok
        cases hfind : fs.find? (fun g => decide (g.name = DBChunkFileName c)) with
        | none =>
          have hany : fs.any (fun f => decide (f.name = DBChunkFileName c)) = false := by
            rw [Bool.eq_false_iff]
            intro h
            obtain ⟨g, hg, hgn⟩ := List.any_eq_true.1 h
            exact List.find?_eq_none.1 hfind g hg hgn
          rw [hokv, hany]
          rfl
        | some f =>
          have hfm : f ∈ fs := List.mem_of_find?_eq_some hfind
          have hfn : f.name = DBChunkFileName c := by simpa using List.find?_some hfind
          rw [load_some absent fs c f hfind] at hm2
          have hbit : f.flag &&& CHF = 0 := by simpa using hm2
          have hchunk : isChunkFileName intSize f.name = true := by
            rw [hfn]
            exact isChunkFileName_target intSize hs fn c hp
          have hr : refused (DBChunkFileName c) = true := by
            cases hr : refused (DBChunkFileName c) with
            | true => rfl
            | false =>
              have : isRemovable intSize CHF refused f = true := by
                rw [isRemovable_parts]
                exact ⟨hchunk, hbit, by rw [hfn]; exact hr⟩
              rw [hnone f hfm] at this
              cases this
          rw [hokv, hr]
          simp
      subst hokf
      have e1 : (convertStep intSize (fsEnv CHF absent refused) s fn).fs = s.fs := by
        rw [hst]
        rfl
      have e2 : (convertStep intSize (fsEnv CHF absent refused) s fn).mod = s.mod := by
        rw [hst]
      have e3 : (convertStep intSize (fsEnv CHF absent refused) s fn).unmod
          = s.unmod + 1 := by rw [hst]
      have e4 : (convertStep intSize (fsEnv CHF absent refused) s fn).removals
          = s.removals ++ [⟨fn, DBChunkFileName c, false⟩] := by
        rw [hst]
        rfl
      obtain ⟨i1, i2, i3, i4, i5⟩ := ih (convertStep intSize (fsEnv CHF absent refused) s fn)
        (e1.trans hfs)
      rw [e2] at i2
      rw [e3] at i3
      rw [e4] at i4 i5
      refine ⟨i1, ?_, ?_, ?_, ?_⟩
      · rw [i2, List.countP_cons_of_neg _ _ (by simp [hc])]
      · rw [i3, List.countP_cons_of_pos _ _ (by simp [hc])]
        omega
      · intro x hx
        rcases i4 x hx with h | h
        · rcases List.mem_append.1 h with h1 | h1
          · exact Or.inl h1
          · simp only [List.mem_singleton] at h1
            right
            rw [h1]
        · exact Or.inr h
      · rw [i5, List.countP_cons_of_pos _ _ (by simp [hc])]
        simp only [List.length_append, List.length_singleton]
        omega

theorem namesRemovable_self (intSize CHF : Nat) (refused : FileName → Bool) (fs : Dir)
    (hnd : (fs.map File.name).Nodup) (f : File) (hf : f ∈ fs) :
    namesRemovable intSize CHF refused fs f.name = isRemovable intSize CHF refused f := by
  cases hr : isRemovable intSize CHF refused f with
  | true => exact (namesRemovable_iff intSize CHF refused fs f.name).2 ⟨f, hf, rfl, hr⟩
  | false =>
    rw [Bool.eq_false_iff]
    intro h
    obtain ⟨g, hg, hgn, hgr⟩ := (namesRemovable_iff intSize CHF refused fs f.name).1 h
    have : g = f := List.inj_on_of_nodup_map hnd hg hf hgn
    rw [this, hr] at hgr
    cases hgr

/-- The two passes over a folder of distinct names: what the first pass leaves and
counts, and what the second pass does with it. -/
theorem two_passes (intSize CHF : Nat) (absent : chunk) (refused : FileName → Bool)
    (fs : Dir) (hs : 32 ≤ intSize) (hnd : (ReadDir fs).Nodup) :
    (ConvertFiles intSize (fsEnv CHF absent refused) (some (ReadDir fs)) fs).fs
      = survivors intSize CHF refused fs ∧
    (ConvertFiles intSize (fsEnv CHF absent refused) (some (ReadDir fs)) fs).mod
      = (ReadDir fs).countP (countedLater intSize CHF absent refused fs) ∧
    (ConvertFiles intSize (fsEnv CHF absent refused)
        (some (ReadDir (survivors intSize CHF refused fs)))
        (survivors intSize CHF refused fs)).fs = survivors intSize CHF refused fs ∧
    (ConvertFiles intSize (fsEnv CHF absent refused)
        (some (ReadDir (survivors intSize CHF refused fs)))
        (survivors intSize CHF refused fs)).mod
      = (ReadDir fs).countP (countedLater intSize CHF absent refused fs) ∧
    (ConvertFiles intSize (fsEnv CHF absent refused)
        (some (ReadDir (survivors intSize CHF refused fs)))
        (survivors intSize CHF refused fs)).unmod
      = (ReadDir (survivors intSize CHF refused fs)).countP
          (fun fn => countsAs intSize CHF absent (survivors intSize CHF refused fs) fn
            == some false) ∧
    (∀ x ∈ (ConvertFiles intSize (fsEnv CHF absent refused)
        (some (ReadDir (survivors intSize CHF refused fs)))
        (survivors intSize CHF refused fs)).removals, x.ok = false) ∧
    (ConvertFiles intSize (fsEnv CHF absent refused)
        (some (ReadDir (survivors intSize CHF refused fs)))
        (survivors intSize CHF refused fs)).removals.length
      = (ReadDir (survivors intSize CHF refused fs)).countP
          (fun fn => countsAs intSize CHF absent (survivors intSize CHF refused fs) fn
            == some false) := by
  have hinv : PassInv intSize CHF refused fs (ReadDir fs)
      { fs := fs, mod := 0, unmod := 0, out := [], loads := [], removals := [] } :=
    ⟨List.Sublist.refl _, fun f hf _ => hf,
      fun f hf _ => List.mem_map_of_mem File.name hf, hnd⟩
  obtain ⟨a, b⟩ := pass_loop intSize CHF absent refused hs fs hnd (ReadDir fs) _ hinv
  have hzero : (ReadDir fs).countP (removedEarly intSize CHF refused fs fs) = 0 := by
    rw [List.countP_eq_zero]
    intro e _
    simp only [removedEarly, Bool.and_eq_true, Bool.not_eq_true', not_and,
      Bool.not_eq_false]
    intro hq
    obtain ⟨f, hf, hfn, _⟩ := (namesRemovable_iff intSize CHF refused fs e).1 hq
    exact List.any_eq_true.2 ⟨f, hf, by simpa using hfn⟩
  have hsurv : ∀ f ∈ survivors intSize CHF refused fs,
      isRemovable intSize CHF refused f = false := by
    intro f hf
    have := (List.mem_filter.1 hf).2
    simpa using this
  obtain ⟨c1, c2, c3, c4, c5⟩ := settled_loop intSize CHF absent refused hs
    (survivors intSize CHF refused fs) hsurv (ReadDir (survivors intSize CHF refused fs))
    { fs := survivors intSize CHF refused fs, mod := 0, unmod := 0, out := [], loads := [],
      removals := [] } rfl
  refine ⟨a, ?_, c1, ?_, ?_, ?_, ?_⟩
  · show (convertLoop intSize (fsEnv CHF absent refused) (ReadDir fs) _).mod = _
    rw [b, hzero]
    simp
  · show (convertLoop intSize (fsEnv CHF absent refused) _ _).mod = _
    rw [c2]
    simp only [Nat.zero_add, ReadDir, survivors, List.countP_map, List.countP_filter]
    apply List.countP_congr
    intro f hf
    simp only [Function.comp, countedLater, namesRemovable_self intSize CHF refused fs hnd f hf,
      survivors, Bool.and_comm]
  · show (convertLoop intSize (fsEnv CHF absent refused) _ _).unmod = _
    rw [c3]
    simp
  · intro x hx
    rcases c4 x hx with h | h
    · cases h
    · exact h
  · show (convertLoop intSize (fsEnv CHF absent refused) _ _).removals.length = _
    rw [c5]
    simp

/-- C5, counterexample: the second pass does not always report zero unmodified files.
In the folder whose only file is `+1,2,3`, with an absent file loaded as an unmodified
chunk and no removal refused, the first pass counts the entry as unmodified and removes
nothing (the file it names, `1,2,3`, does not exist), and the second pass counts it
again. And in the folder with `-4,0,7` (modified), `1,2,3` (unmodified) and `readme.txt`,
when the system refuses every removal, the file `1,2,3` stays and the second pass counts
it again. -/
theorem ConvertFiles_second_pass_counts_again :
    ¬ ((ConvertFiles 64 (fsEnv 1 ⟨0⟩ (fun _ => false))
          (some (ReadDir (ConvertFiles 64 (fsEnv 1 ⟨0⟩ (fun _ => false))
            (some (ReadDir plusDir)) plusDir).fs))
          (ConvertFiles 64 (fsEnv 1 ⟨0⟩ (fun _ => false)) (some (ReadDir plusDir)) plusDir).fs).fs
        = (ConvertFiles 64 (fsEnv 1 ⟨0⟩ (fun _ => false)) (some (ReadDir plusDir)) plusDir).fs ∧
      (ConvertFiles 64 (fsEnv 1 ⟨0⟩ (fun _ => false))
          (some (ReadDir (ConvertFiles 64 (fsEnv 1 ⟨0⟩ (fun _ => false))
            (some (ReadDir plusDir)) plusDir).fs))
          (ConvertFiles 64 (fsEnv 1 ⟨0⟩ (fun _ => false)) (some (ReadDir plusDir)) plusDir).fs).mod
        = (ConvertFiles 64 (fsEnv 1 ⟨0⟩ (fun _ => false)) (some (ReadDir plusDir)) plusDir).mod ∧
      (ConvertFiles 64 (fsEnv 1 ⟨0⟩ (fun _ => false))
          (some (ReadDir (ConvertFiles 64 (fsEnv 1 ⟨0⟩ (fun _ => false))
            (some (ReadDir plusDir)) plusDir).fs))
          (ConvertFiles 64 (fsEnv 1 ⟨0⟩ (fun _ => false)) (some (ReadDir plusDir)) plusDir).fs).unmod
        = 0) ∧
    (ConvertFiles 64 (fsEnv 1 ⟨0⟩ (fun _ => true))
        (some (ReadDir (ConvertFiles 64 (fsEnv 1 ⟨0⟩ (fun _ => true))
          (some (ReadDir mixedDir)) mixedDir).fs))
        (ConvertFiles 64 (fsEnv 1 ⟨0⟩ (fun _ => true)) (some (ReadDir mixedDir)) mixedDir).fs).unmod
      = 1 := by
  decide

/-- C5, amended: for every chunk folder with distinct names, running `ConvertFiles` on
the result of `ConvertFiles` leaves the set of files unchanged, no call of `os.Remove`
of the second pass succeeds, and the second pass reports the same modified count as the
first. It reports zero unmodified files, and calls `os.Remove` for nothing, when the
system refuses no removal and every well-formed name in the folder is the name under
which the chunk of its coordinate is stored (or a chunk without file loads as a
modified one). -/
theorem ConvertFiles_second_pass_idempotent (intSize CHF : Nat) (absent : chunk)
    (refused : FileName → Bool) (fs : Dir) (hs : 32 ≤ intSize) (hnd : (ReadDir fs).Nodup) :
    (ConvertFiles intSize (fsEnv CHF absent refused)
        (some (ReadDir (ConvertFiles intSize (fsEnv CHF absent refused)
          (some (ReadDir fs)) fs).fs))
        (ConvertFiles intSize (fsEnv CHF absent refused) (some (ReadDir fs)) fs).fs).fs
      = (ConvertFiles intSize (fsEnv CHF absent refused) (some (ReadDir fs)) fs).fs ∧
    (∀ x ∈ (ConvertFiles intSize (fsEnv CHF absent refused)
        (some (ReadDir (ConvertFiles intSize (fsEnv CHF absent refused)
          (some (ReadDir fs)) fs).fs))
        (ConvertFiles intSize (fsEnv CHF absent refused) (some (ReadDir fs)) fs).fs).removals,
      x.ok = false) ∧
    (ConvertFiles intSize (fsEnv CHF absent refused)
        (some (ReadDir (ConvertFiles intSize (fsEnv CHF absent refused)
          (some (ReadDir fs)) fs).fs))
        (ConvertFiles intSize (fsEnv CHF absent refused) (some (ReadDir fs)) fs).fs).mod
      = (ConvertFiles intSize (fsEnv CHF absent refused) (some (ReadDir fs)) fs).mod ∧
    ((∀ f ∈ fs, refused f.name = false) →
      ((∀ f ∈ fs, canonical intSize f.name = true) ∨ absent.flag &&& CHF ≠ 0) →
      (ConvertFiles intSize (fsEnv CHF absent refused)
          (some (ReadDir (ConvertFiles intSize (fsEnv CHF absent refused)
            (some (ReadDir fs)) fs).fs))
          (ConvertFiles intSize (fsEnv CHF absent refused) (some (ReadDir fs)) fs).fs).unmod
        = 0 ∧
      (ConvertFiles intSize (fsEnv CHF absent refused)
          (some (ReadDir (ConvertFiles intSize (fsEnv CHF absent refused)
            (some (ReadDir fs)) fs).fs))
          (ConvertFiles intSize (fsEnv CHF absent refused) (some (ReadDir fs)) fs).fs).removals
        = []) := by
  obtain ⟨a, b, c, d, e, f, g⟩ := two_passes intSize CHF absent refused fs hs hnd
  rw [a]
  refine ⟨c, f, d.trans b.symm, ?_⟩
  intro href hcan
  have hzero : (ReadDir (survivors intSize CHF refused fs)).countP
      (fun fn => countsAs intSize CHF absent (survivors intSize CHF refused fs) fn
        == some false) = 0 := by
    rw [List.countP_eq_zero]
    intro fn hfn hcount
    obtain ⟨f1, hf1, hname⟩ := List.mem_map.1 hfn
    obtain ⟨hf0, _⟩ := List.mem_filter.1 hf1
    have hcount2 : countsAs intSize CHF absent (survivors intSize CHF refused fs) f1.name
        = some false := by
      rw [hname]
      simpa using hcount
    cases hp : parseName intSize f1.name with
    | error msg => simp [countsAs, hp] at hcount2
    | ok c1 =>
      simp only [countsAs, hp] at hcount2
      cases hfind : (survivors intSize CHF refused fs).find?
          (fun g => decide (g.name = DBChunkFileName c1)) with
      | some g1 =>
        have hg1 : g1 ∈ survivors intSize CHF refused fs := List.mem_of_find?_eq_some hfind
        have hg1n : g1.name = DBChunkFileName c1 := by simpa using List.find?_some hfind
        obtain ⟨hg0, hg1nr⟩ := List.mem_filter.1 hg1
        rw [load_some absent _ c1 g1 hfind] at hcount2
        have hbit : g1.flag &&& CHF = 0 := by simpa using hcount2
        have hrem : isRemovable intSize CHF refused g1 = true := by
          rw [isRemovable_parts]
          refine ⟨?_, hbit, href g1 hg0⟩
          rw [hg1n]
          exact isChunkFileName_target intSize hs f1.name c1 hp
        rw [hrem] at hg1nr
        cases hg1nr
      | none =>
        rw [load_none absent _ c1 hfind] at hcount2
        have hA : absent.flag &&& CHF = 0 := by simpa using hcount2
        rcases hcan with hcan | hmodabs
        · have hcn := hcan f1 hf0
          simp only [canonical, hp, decide_eq_true_eq] at hcn
          have hself := find_by_name (survivors intSize CHF refused fs) f1
            (survivors_nodup intSize CHF refused fs hnd) hf1
          rw [← hcn, hfind] at hself
          cases hself
        · exact hmodabs hA
  refine ⟨by rw [e, hzero], ?_⟩
  rw [hzero] at g
  exact List.length_eq_zero.1 g

/-- Witness of C5 amended. The folder with `+1,2,3` and `1,2,3` has distinct names: the
first pass removes `1,2,3`, and the second pass leaves the folder as it is and reports
the modified count of the first, 0. The folder with `-4,0,7` (modified), `1,2,3`
(unmodified) and `readme.txt` has distinct names, each well-formed one the name of the
file of its coordinate: the second pass reports zero unmodified files. -/
theorem ConvertFiles_second_pass_idempotent_witness :
    ((ReadDir aliasDir).Nodup ∧
      (ConvertFiles 64 (fsEnv 1 ⟨0⟩ (fun _ => false)) (some (ReadDir aliasDir)) aliasDir).fs
        = [⟨"+1,2,3".toList, 0⟩] ∧
      (ConvertFiles 64 (fsEnv 1 ⟨0⟩ (fun _ => false))
          (some (ReadDir (ConvertFiles 64 (fsEnv 1 ⟨0⟩ (fun _ => false))
            (some (ReadDir aliasDir)) aliasDir).fs))
          (ConvertFiles 64 (fsEnv 1 ⟨0⟩ (fun _ => false)) (some (ReadDir aliasDir))
            aliasDir).fs).mod
        = (ConvertFiles 64 (fsEnv 1 ⟨0⟩ (fun _ => false)) (some (ReadDir aliasDir))
            aliasDir).mod) ∧
    ((ReadDir mixedDir).Nodup ∧ (∀ f ∈ mixedDir, canonical 64 f.name = true) ∧
      (ConvertFiles 64 (fsEnv 1 ⟨0⟩ (fun _ => false))
          (some (ReadDir (ConvertFiles 64 (fsEnv 1 ⟨0⟩ (fun _ => false))
            (some (ReadDir mixedDir)) mixedDir).fs))
          (ConvertFiles 64 (fsEnv 1 ⟨0⟩ (fun _ => false)) (some (ReadDir mixedDir))
            mixedDir).fs).unmod = 0) :=
  ⟨⟨by decide, by decide,
      (ConvertFiles_second_pass_idempotent 64 1 ⟨0⟩ (fun _ => false) aliasDir
        (by decide) (by decide)).2.2.1⟩,
    ⟨by decide, by decide,
      ((ConvertFiles_second_pass_idempotent 64 1 ⟨0⟩ (fun _ => false) mixedDir
        (by decide) (by decide)).2.2.2 (fun _ _ => rfl) (Or.inl (by decide))).1⟩⟩

end ConvertTheorems

section MainTheorems

/-- C7, counterexample: with a configuration file that has no section `sql`, and nothing
else failing, `main` does not abort: it launches the poller, autosave, purge, the signal
handler and the tick loop, and the process does not terminate. And with a configuration
file that cannot be read the exit status is 0, `main` returns. -/
theorem main_continues_without_sql_section :
    ((∃ cnfg, noSqlStartup.config = some cnfg ∧ cnfg.hasSql = false) ∧
      launched noSqlStartup = [Action.Poll_Bl, Action.ProcAutosave_RLu,
        Action.ProcPurgeOldChunks_WLw, Action.CatchSig,
        Action.ManageMonsters_WLwWLuWLqWLmBlWLc] ∧
      exitStatus (main noSqlStartup).2 = none) ∧
    (noConfigStartup.config = none ∧ exitStatus (main noConfigStartup).2 = some 0) := by
  decide

theorem startServer_listen (s : Startup) (acts : List Action)
    (hacts : ∀ a ∈ acts, a.isActivity = false ∧ a ≠ Action.SetupListenForClients_WLuBlWLqWLa)
    (hl : s.listenOk = false)
    (hmem : Action.SetupListenForClients_WLuBlWLqWLa ∈ (startServer s acts).1) :
    (startServer s acts).1.filter Action.isActivity = [] ∧
      exitStatus (startServer s acts).2 = some 1 := by
  have hnot : Action.SetupListenForClients_WLuBlWLqWLa ∉ acts := fun h => (hacts _ h).2 rfl
  have hfil : acts.filter Action.isActivity = [] := by
    rw [List.filter_eq_nil_iff]
    intro a ha
    simp [(hacts a ha).1]
  rcases s with ⟨config, cv, cpu, cr, ds, tf, hn, ln⟩
  simp only at hl
  subst hl
  unfold startServer at hmem ⊢
  by_cases hc : cpu = "" <;> cases cv <;> cases cr <;> cases ds <;> cases tf <;> cases hn <;>
    simp_all [List.filter_append, Action.isActivity, exitStatus]

/-- C7, amended: when the configuration file cannot be read, or it has a section `sql`
that lacks one of `DatabaseServer`, `DatabaseName`, `DatabaseLogin`, `DatabasePassword`,
`main` makes no call at all, so it launches none of the poller, autosave, purge, signal
and tick-loop activities, and it terminates. When setting up the client listener fails,
`main` launches none of these activities and the process terminates with exit status 1.
When the section `sql` is absent, `main` goes on as it does after a complete section,
without setting a connection. -/
theorem main_aborts_startup (s : Startup) :
    (s.config = none → (main s).1 = [] ∧ (main s).2 ≠ Ending.neverReturns) ∧
    (∀ cnfg, s.config = some cnfg → cnfg.hasSql = true → cnfg.keyMissing = true →
      (main s).1 = [] ∧ (main s).2 ≠ Ending.neverReturns) ∧
    (s.listenOk = false → Action.SetupListenForClients_WLuBlWLqWLa ∈ (main s).1 →
      launched s = [] ∧ exitStatus (main s).2 = some 1) ∧
    (∀ cnfg, s.config = some cnfg → cnfg.hasSql = false → main s = startServer s []) := by
  refine ⟨?_, ?_, ?_, ?_⟩
  · intro h
    simp [main, h]
  · intro cnfg h hsql hkey
    have hnone : setupSql cnfg = none := by
      unfold setupSql
      unfold Config.keyMissing at hkey
      cases h1 : cnfg.DatabaseServer <;> cases h2 : cnfg.DatabaseName <;>
        cases h3 : cnfg.DatabaseLogin <;> cases h4 : cnfg.DatabasePassword <;>
        simp_all
    simp [main, h, hnone]
  · intro hl hmem
    unfold launched
    unfold main at hmem ⊢
    cases hc : s.config with
    | none => simp [hc] at hmem
    | some cnfg =>
      simp only [hc] at hmem ⊢
      cases hq : setupSql cnfg with
      | none => simp [hq] at hmem
      | some acts =>
        simp only [hq] at hmem ⊢
        apply startServer_listen s acts _ hl hmem
        intro a ha
        unfold setupSql at hq
        by_cases hsql : cnfg.hasSql = true
        · cases h1 : cnfg.DatabaseServer <;> cases h2 : cnfg.DatabaseName <;>
            cases h3 : cnfg.DatabaseLogin <;> cases h4 : cnfg.DatabasePassword <;>
            simp [hsql, h1, h2, h3, h4] at hq
          subst hq
          simp only [List.mem_singleton] at ha
          subst ha
          exact ⟨rfl, fun h => Action.noConfusion h⟩
        · simp only [hsql] at hq
          simp at hq
          subst hq
          cases ha
  · intro cnfg h hsql
    simp [main, h, setupSql, hsql]

/-- Witness of C7 amended: a startup whose configuration cannot be read makes no call,
and a startup in which the listener fails ends with exit status 1 and nothing launched. -/
theorem main_aborts_startup_witness :
    (noConfigStartup.config = none ∧ (main noConfigStartup).1 = []) ∧
    (noListenStartup.listenOk = false ∧
      Action.SetupListenForClients_WLuBlWLqWLa ∈ (main noListenStartup).1 ∧
      launched noListenStartup = [] ∧ exitStatus (main noListenStartup).2 = some 1) :=
  ⟨⟨rfl, ((main_aborts_startup noConfigStartup).1 rfl).1⟩,
    ⟨rfl, by decide, (main_aborts_startup noListenStartup).2.2.1 rfl (by decide)⟩⟩

end MainTheorems

section LockTheorems

/-- C9, counterexample: `SetupListenForClients_WLuBlWLqWLa`, which `main` calls, declares
Users, Blocks, Queue and a tag `a` that names none of the six domains: Blocks stands
before Queue, against the global order World, Users, Queue, Monsters, Blocks, Chunks. -/
theorem SetupListenForClients_out_of_order :
    "SetupListenForClients_WLuBlWLqWLa" ∈ startedOperations normalStartup ∧
    declared "SetupListenForClients_WLuBlWLqWLa"
      = [some Domain.Users, some Domain.Blocks, some Domain.Queue, none] ∧
    inGlobalOrder (declared "SetupListenForClients_WLuBlWLqWLa") = false := by
  decide

theorem Domain.rank_lt (d : Domain) : d.rank < 6 := by
  cases d <;> decide

theorem rank_lt_of_take_get (l : List Domain) (k : Nat) (d e : Domain)
    (hp : l.Pairwise (fun a b => a.rank < b.rank)) (hd : d ∈ l.take k)
    (he : l.get? k = some e) : d.rank < e.rank := by
  have hsplit : l = l.take k ++ l.drop k := (List.take_append_drop k l).symm
  rw [hsplit, List.pairwise_append] at hp
  apply hp.2.2 d hd e
  have hk : k < l.length := by
    by_contra hge
    rw [List.get?_eq_none.2 (by omega)] at he
    cases he
  rw [List.get?_eq_get hk] at he
  cases he
  rw [List.drop_eq_getElem_cons hk]
  exact List.mem_cons_self _ _

theorem waitsFor_wantRank (ops : List String)
    (hops : ∀ op ∈ ops, inGlobalOrder (declared op) = true) (t u : Task)
    (h : waitsFor ops t u) : t.wantRank < u.wantRank := by
  obtain ⟨_, hu, d, hw, hh⟩ := h
  have hord := hops u.ident hu
  unfold inGlobalOrder at hord
  simp only [Bool.and_eq_true, decide_eq_true_eq] at hord
  have hp : (declaredDomains u.ident).Pairwise (fun a b => a.rank < b.rank) := hord.2
  have ht : t.wantRank = d.rank := by
    unfold Task.wantRank
    rw [hw]
  rw [ht]
  unfold Task.wantRank
  cases hu2 : u.wants with
  | none => exact Domain.rank_lt d
  | some e => exact rank_lt_of_take_get _ u.held d e hp hh hu2

/-- C9, amended: of the operations that `main` starts and whose name declares a lock
set, `Poll_Bl`, `ProcAutosave_RLu`, `ProcPurgeOldChunks_WLw` and
`ManageMonsters_WLwWLuWLqWLmBlWLc` declare their domains in the global order World,
Users, Queue, Monsters, Blocks, Chunks, and tasks that run these operations, each
acquiring its domains in the declared order, never form a cycle of waits. -/
theorem ordered_operations_no_wait_cycle :
    orderedOperations = ["Poll_Bl", "ProcAutosave_RLu", "ProcPurgeOldChunks_WLw",
      "ManageMonsters_WLwWLuWLqWLmBlWLc"] ∧
    (∀ op ∈ orderedOperations, inGlobalOrder (declared op) = true) ∧
    (∀ t : Task, ¬ Relation.TransGen (waitsFor orderedOperations) t t) := by
  have hops : ∀ op ∈ orderedOperations, inGlobalOrder (declared op) = true := by
    intro op hop
    exact (List.mem_filter.1 hop).2
  refine ⟨by decide, hops, ?_⟩
  have hlt : ∀ t u : Task, Relation.TransGen (waitsFor orderedOperations) t u →
      t.wantRank < u.wantRank := by
    intro t u h
    induction h with
    | single h1 => exact waitsFor_wantRank _ hops _ _ h1
    | tail _ h2 ih => exact lt_trans ih (waitsFor_wantRank _ hops _ _ h2)
  intro t h
  exact lt_irrefl _ (hlt t t h)

end LockTheorems

end Pheenadv
